import Mathlib

/-! Progressive photon mapping: the integrators `photon_ppm` and `photon_sppm`.

A shallow embedding of the two integrators of `src/photon_ppm.cpp` and
`src/photon_sppm.cpp`.

* `float` values are idealised as exact rationals.  A division whose divisor is
  zero has no rational value: where its result would be stored in renderer
  state the run ends with `Fault.divisionByZero`, where it is only handed to the
  image block the written value is `none` (a non-finite colour).  The eye pass
  of `photon_sppm` is given a second time (`eyePathNaN`) with the NaN that a
  roulette division of `(0, 0, 0)` by zero stores followed through the loop.
* `uint32_t` counters are natural numbers reduced modulo `2 ^ 32`.
* `while (true)` loops and the photon budget loop take a fuel argument and end
  with `Fault.outOfFuel` when it runs out.
* The scene, the materials, the emitters, the camera, the sampler, `sqrt` and
  the k-d tree search are external to the two files; they enter as data
  (`Scene`, `Mesh`, `Sampler`, `Lib`).
-/

namespace Nori

/-! ## Colours, points, rays -/

/-- RGB triple (`Color3f`). -/
structure Color3f where
  r : ℚ
  g : ℚ
  b : ℚ
deriving DecidableEq

namespace Color3f

/-- The colour `Color3f(v)` with all channels equal to `v`. -/
def const (v : ℚ) : Color3f := ⟨v, v, v⟩

/-- Channel-wise sum. -/
def add (a c : Color3f) : Color3f := ⟨a.r + c.r, a.g + c.g, a.b + c.b⟩

/-- Channel-wise product. -/
def mul (a c : Color3f) : Color3f := ⟨a.r * c.r, a.g * c.g, a.b * c.b⟩

/-- Product with a scalar. -/
def scale (a : Color3f) (s : ℚ) : Color3f := ⟨a.r * s, a.g * s, a.b * s⟩

/-- Quotient by a scalar (only used with a non-zero divisor). -/
def divs (a : Color3f) (s : ℚ) : Color3f := ⟨a.r / s, a.g / s, a.b / s⟩

/-- Quotient by a scalar as handed to the image block: `none` when the divisor is zero. -/
def divs? (a : Color3f) (s : ℚ) : Option Color3f := if s = 0 then none else some (a.divs s)

/-- Largest channel (`maxCoeff`). -/
def maxCoeff (a : Color3f) : ℚ := max (max a.r a.g) a.b

/-- All channels are non-negative. -/
def NonNeg (a : Color3f) : Prop := 0 ≤ a.r ∧ 0 ≤ a.g ∧ 0 ≤ a.b

instance : Add Color3f := ⟨add⟩
instance : Mul Color3f := ⟨mul⟩
instance : HMul Color3f ℚ Color3f := ⟨scale⟩
instance : HDiv Color3f ℚ Color3f := ⟨divs⟩
instance : Zero Color3f := ⟨const 0⟩
instance (a : Color3f) : Decidable a.NonNeg := by unfold NonNeg; infer_instance

end Color3f

/-- Three-component vector, also used for points and normals. -/
structure Vector3f where
  x : ℚ
  y : ℚ
  z : ℚ
deriving DecidableEq

/-- Unary minus on vectors. -/
def Vector3f.neg (v : Vector3f) : Vector3f := ⟨-v.x, -v.y, -v.z⟩

instance : Neg Vector3f := ⟨Vector3f.neg⟩

/-- Squared Euclidean distance between two points. -/
def Vector3f.distSq (a c : Vector3f) : ℚ :=
  (a.x - c.x) * (a.x - c.x) + (a.y - c.y) * (a.y - c.y) + (a.z - c.z) * (a.z - c.z)

/-- Image-plane position (`Point2f`). -/
structure Point2f where
  x : ℚ
  y : ℚ
deriving DecidableEq

/-- The point `Point2f(v)`. -/
def Point2f.const (v : ℚ) : Point2f := ⟨v, v⟩

instance : Add Point2f := ⟨fun a c => ⟨a.x + c.x, a.y + c.y⟩⟩

/-- Ray with origin `o` and direction `d`. -/
structure Ray3f where
  o : Vector3f
  d : Vector3f
deriving DecidableEq

/-! ## External collaborators -/

/-- Sample generator: a fixed stream of draws and the position of the next one.
`next1D` takes one draw, `next2D` two. -/
structure Sampler where
  stream : ℕ → ℚ
  pos : ℕ

/-- Result of `sampler->next1D()`: the draw and the advanced sampler. -/
def Sampler.next1D (s : Sampler) : ℚ × Sampler := (s.stream s.pos, { s with pos := s.pos + 1 })

/-- Result of `sampler->next2D()`: the pair of draws and the advanced sampler. -/
def Sampler.next2D (s : Sampler) : Point2f × Sampler :=
  (⟨s.stream s.pos, s.stream (s.pos + 1)⟩, { s with pos := s.pos + 2 })

/-- Stored photon: position, direction and power. -/
structure Photon where
  pos : Vector3f
  dir : Vector3f
  power : Color3f
deriving DecidableEq

/-- Material.  `sample wi xi` is the albedo returned by `sample(bRec, xi)` for
`bRec(wi)` together with the direction `bRec.wo` it writes; `eval a c` is
`eval(bRec)` for `bRec(a, c, ESolidAngle)`. -/
structure BSDF where
  isDiffuse : Bool
  sample : Vector3f → Point2f → Color3f × Vector3f
  eval : Vector3f → Vector3f → Color3f

/-- Emitter.  `eval ref p n` is `eval(eRec)` for `eRec(ref, p, n)`;
`samplePhoton sampler nLights` is the photon returned for the emitter's own mesh
together with the advanced sampler. -/
structure Emitter where
  eval : Vector3f → Vector3f → Vector3f → Color3f
  samplePhoton : Sampler → ℤ → Photon × Sampler

/-- Mesh as seen by the integrators: `isEmitter()`, `getBSDF()`, `getEmitter()`. -/
structure Mesh where
  isEmitter : Bool
  bsdf : BSDF
  emitter : Emitter

/-- Shading frame: `toLocal`, `toWorld` and the normal `n`. -/
structure Frame where
  toLocal : Vector3f → Vector3f
  toWorld : Vector3f → Vector3f
  n : Vector3f

/-- Surface interaction: hit point, shading frame and mesh. -/
structure Intersection where
  p : Vector3f
  shFrame : Frame
  mesh : Mesh

/-- Scene: `getMeshes()`, `rayIntersect` and the camera's `sampleRay`. -/
structure Scene where
  meshes : List Mesh
  rayIntersect : Ray3f → Option Intersection
  sampleRay : Point2f → Ray3f

/-- Library functions the integrators call: `sqrt` and the photon map's
`search(p, radius, results)`, which yields indices into the stored photons. -/
structure Lib where
  sqrt : ℚ → ℚ
  search : List Photon → Vector3f → ℚ → List ℕ

/-- Image block, as the sequence of `put(pos, value)` calls it has received;
the value `none` stands for a non-finite colour. -/
abbrev ImageBlock := List (Point2f × Option Color3f)

/-- The call `block.put(pos, value)`. -/
def ImageBlock.put (block : ImageBlock) (pos : Point2f) (value : Option Color3f) : ImageBlock :=
  block ++ [(pos, value)]

/-- Ways a run leaves the embedding. -/
inductive Fault where
  | outOfFuel
  | divisionByZero
  | indexOutOfRange
deriving DecidableEq

/-- The constant `M_PI` of `math.h`. -/
def M_PI : ℚ := 3.14159265358979323846

/-- Wrap-around of `uint32_t` arithmetic. -/
def u32 (n : ℕ) : ℕ := n % 2 ^ 32

/-! ## Russian roulette

The block below closes the body of each of the four path loops
(`photon_ppm.cpp` 79-90 and 164-175, `photon_sppm.cpp` 112-123 and 191-200). -/

/-- Minimum bounce count before roulette starts. -/
def LEAST_DEPTH : ℕ := 5

/-- Outcome of the roulette block: the loop breaks, the loop goes on with the
given depth, throughput and sampler, or the throughput is divided by zero. -/
inductive Roulette where
  | terminate (sampler : Sampler)
  | survive (depth : ℕ) (throughput : Color3f) (sampler : Sampler)
  | divisionByZero

/-- The roulette block: `if (depth < LEAST_DEPTH) depth++; else { q = maxCoeff;
if (next1D() > q) break; throughput /= q; }`. -/
def russianRoulette (depth : ℕ) (throughput : Color3f) (sampler : Sampler) : Roulette :=
  if depth < LEAST_DEPTH then
    .survive (depth + 1) throughput sampler
  else
    let q := throughput.maxCoeff
    let u := sampler.next1D
    if u.1 > q then .terminate u.2
    else if q = 0 then .divisionByZero
    else .survive depth (throughput / q) u.2

/-! ## Light-path tracing (identical in both integrators) -/

/-- Locals of the photon emission phase that outlive one light path. -/
structure Emission where
  map : List Photon
  storedPhotons : ℕ
  photonEmitter : ℕ
  /-- Number of loop iterations so far, without wrap-around (not in the code). -/
  emitted : ℕ
  sampler : Sampler

/-- The head of the light-path loop body: `if (isDiffuse()) { push_back(Photon(its.p,
-Ray.d, power * wait_albedo)); storedPhotons++; }`. -/
def deposit (power : Color3f) (its : Intersection) (Ray : Ray3f) (wait_albedo : Color3f)
    (st : Emission) : Emission :=
  if its.mesh.bsdf.isDiffuse then
    { st with map := st.map ++ [⟨its.p, -Ray.d, power * wait_albedo⟩],
              storedPhotons := u32 (st.storedPhotons + 1) }
  else st

/-- The inner `while (true)` of the emission phase, started at hit `its` of `Ray`. -/
def photonPath (scene : Scene) (power : Color3f) :
    ℕ → Intersection → Ray3f → Color3f → ℕ → Emission → Except Fault Emission
  | 0, _, _, _, _, _ => .error .outOfFuel
  | fuel + 1, its, Ray, wait_albedo, depth, st =>
    let st1 : Emission := deposit power its Ray wait_albedo st
    let xi := st1.sampler.next2D
    let bs := its.mesh.bsdf.sample (its.shFrame.toLocal (-Ray.d)) xi.1
    if bs.1.maxCoeff = 0 then .ok { st1 with sampler := xi.2 }
    else
      let ro : Ray3f := ⟨its.p, its.shFrame.toWorld bs.2⟩
      match scene.rayIntersect ro with
      | none => .ok { st1 with sampler := xi.2 }
      | some next_its =>
        match russianRoulette depth (wait_albedo * bs.1) xi.2 with
        | .terminate smp => .ok { st1 with sampler := smp }
        | .divisionByZero => .error .divisionByZero
        | .survive depth1 wait1 smp =>
          photonPath scene power fuel next_its ro wait1 depth1 { st1 with sampler := smp }

/-- The loop `while (storedPhotons < photonCount)`.  The light is
`lights[nLights * next1D()]`, the product being truncated to an index. -/
def emitLoop (pathFuel : ℕ) (scene : Scene) (lights : List Mesh) (photonCount : ℕ) :
    ℕ → Emission → Except Fault Emission
  | 0, st => if st.storedPhotons < photonCount then .error .outOfFuel else .ok st
  | fuel + 1, st =>
    if st.storedPhotons < photonCount then
      let u := st.sampler.next1D
      match lights[(Int.floor (((lights.length : ℤ) : ℚ) * u.1)).toNat]? with
      | none => .error .indexOutOfRange
      | some areaLight =>
        let ph := areaLight.emitter.samplePhoton u.2 (lights.length : ℤ)
        let Ray : Ray3f := ⟨ph.1.pos, ph.1.dir⟩
        let st1 : Emission :=
          { st with photonEmitter := u32 (st.photonEmitter + 1), emitted := st.emitted + 1,
                    sampler := ph.2 }
        match scene.rayIntersect Ray with
        | none => emitLoop pathFuel scene lights photonCount fuel st1
        | some its =>
          match photonPath scene ph.1.power pathFuel its Ray (Color3f.const 1) 0 st1 with
          | .error e => .error e
          | .ok st2 => emitLoop pathFuel scene lights photonCount fuel st2
    else .ok st

/-- The list `lights` of the emitter meshes of the scene. -/
def Scene.lights (scene : Scene) : List Mesh := scene.meshes.filter (fun m => m.isEmitter)

/-- The emission phase of one pass: fresh map, zeroed counters, then the
budget loop. -/
def emitPhotons (fuel : ℕ) (scene : Scene) (photonCount : ℕ) (sampler : Sampler) :
    Except Fault Emission :=
  emitLoop fuel scene scene.lights photonCount fuel ⟨[], 0, 0, 0, sampler⟩

/-- The loop `for (auto idx : local_photon) nPower += fr * photon.getPower()`,
where `fr photon` is the value of the record's BSDF for that photon. -/
def gatherPower (map : List Photon) (fr : Photon → Color3f) :
    List ℕ → Color3f → Except Fault Color3f
  | [], nPower => .ok nPower
  | idx :: rest, nPower =>
    match map[idx]? with
    | none => .error .indexOutOfRange
    | some photon => gatherPower map fr rest (nPower + fr photon * photon.power)

/-! ## `photon_ppm`: viewpoints collected once -/

/-- Viewpoint record, built as
`ViewQueryRecord(its, bitmap_pos, dir, power, radius, albedo, p_nums)`.
The effective photon count `p_nums` is fractional. -/
structure ViewQueryRecord where
  its : Intersection
  bitmap_pos : Point2f
  dir : Vector3f
  power : Color3f
  radius : ℚ
  albedo : Color3f
  p_nums : ℚ

/-- Fields of the integrator `photon_ppm`. -/
structure photon_ppm where
  photonCount : ℕ
  photonTotal : ℕ
  iteration : ℕ
  photonRadius : ℚ
  alpha : ℚ
  viewPointMap : List ViewQueryRecord
  m_photonMap : List Photon

/-- The `while (true)` of `photon_ppm::Li`, started at hit `x` of `Ray`. -/
def photon_ppm.LiLoop (scene : Scene) (photonRadius : ℚ) (bitmap_pos : Point2f) :
    ℕ → Intersection → Ray3f → Color3f → ℕ → Sampler → List ViewQueryRecord →
      Except Fault (List ViewQueryRecord × Sampler)
  | 0, _, _, _, _, _, _ => .error .outOfFuel
  | fuel + 1, x, Ray, wait_albedo, depth, sampler, viewPointMap =>
    let xi := sampler.next2D
    let bs := x.mesh.bsdf.sample (x.shFrame.toLocal (-Ray.d)) xi.1
    if bs.1.maxCoeff = 0 then .ok (viewPointMap, xi.2)
    else if x.mesh.isEmitter then
      let radiance := x.mesh.emitter.eval Ray.o x.p x.shFrame.n
      .ok (viewPointMap ++ [⟨x, bitmap_pos, -Ray.d, radiance, photonRadius, wait_albedo, 0⟩], xi.2)
    else if x.mesh.bsdf.isDiffuse then
      .ok (viewPointMap ++
        [⟨x, bitmap_pos, -Ray.d, Color3f.const 0, photonRadius, wait_albedo, 0⟩], xi.2)
    else
      let ro : Ray3f := ⟨x.p, x.shFrame.toWorld bs.2⟩
      match scene.rayIntersect ro with
      | none => .ok (viewPointMap, xi.2)
      | some next_x =>
        match russianRoulette depth (wait_albedo * bs.1) xi.2 with
        | .terminate smp => .ok (viewPointMap, smp)
        | .divisionByZero => .error .divisionByZero
        | .survive depth1 wait1 smp =>
          photon_ppm.LiLoop scene photonRadius bitmap_pos fuel next_x ro wait1 depth1 smp
            viewPointMap

/-- The call `Li(scene, sampler, ray, bitmap_pos)`: the integrator afterwards and
the advanced sampler (the returned colour is always zero). -/
def photon_ppm.Li (fuel : ℕ) (scene : Scene) (st : photon_ppm) (sampler : Sampler)
    (ray : Ray3f) (bitmap_pos : Point2f) : Except Fault (photon_ppm × Sampler) :=
  match scene.rayIntersect ray with
  | none => .ok (st, sampler)
  | some its =>
    match photon_ppm.LiLoop scene st.photonRadius bitmap_pos fuel its ray (Color3f.const 1) 0
        sampler st.viewPointMap with
    | .error e => .error e
    | .ok r => .ok ({ st with viewPointMap := r.1 }, r.2)

/-- Any sequence of `Li` calls, each with its own sampler, ray and pixel. -/
def photon_ppm.LiAll (fuel : ℕ) (scene : Scene) :
    List (Sampler × Ray3f × Point2f) → photon_ppm → Except Fault photon_ppm
  | [], st => .ok st
  | c :: rest, st =>
    match photon_ppm.Li fuel scene st c.1 c.2.1 c.2.2 with
    | .error e => .error e
    | .ok r => photon_ppm.LiAll fuel scene rest r.1

/-- Body of `for (auto &vp : viewPointMap)` in `photon_ppm::postprocess`: the
record and the block afterwards. -/
def photon_ppm.updateViewPoint (lib : Lib) (alpha : ℚ) (map : List Photon) (photonTotal : ℕ)
    (vp : ViewQueryRecord) (block : ImageBlock) : Except Fault (ViewQueryRecord × ImageBlock) :=
  let block1 : ImageBlock :=
    if vp.its.mesh.isEmitter then block.put vp.bitmap_pos (some (vp.power * vp.albedo)) else block
  let local_photon := lib.search map vp.its.p vp.radius
  if local_photon.length = 0 then .ok (vp, block1)
  else if vp.p_nums + (local_photon.length : ℚ) = 0 then .error .divisionByZero
  else
    let rate : ℚ :=
      (vp.p_nums + alpha * (local_photon.length : ℚ)) / (vp.p_nums + (local_photon.length : ℚ))
    let radius := vp.radius * lib.sqrt rate
    match gatherPower map
        (fun photon => vp.its.mesh.bsdf.eval (vp.its.shFrame.toLocal photon.dir)
          (vp.its.shFrame.toLocal vp.dir))
        local_photon (Color3f.const 0) with
    | .error e => .error e
    | .ok nPower =>
      let power := (vp.power + nPower) * rate * vp.albedo
      let p_nums := vp.p_nums + (local_photon.length : ℚ) * alpha
      .ok ({ vp with radius := radius, power := power, p_nums := p_nums },
        block1.put vp.bitmap_pos (power.divs? (M_PI * radius * radius * (photonTotal : ℚ))))

/-- The sweep `for (auto &vp : viewPointMap)`. -/
def photon_ppm.sweep (lib : Lib) (alpha : ℚ) (map : List Photon) (photonTotal : ℕ) :
    List ViewQueryRecord → ImageBlock → Except Fault (List ViewQueryRecord × ImageBlock)
  | [], block => .ok ([], block)
  | vp :: rest, block =>
    match photon_ppm.updateViewPoint lib alpha map photonTotal vp block with
    | .error e => .error e
    | .ok r =>
      match photon_ppm.sweep lib alpha map photonTotal rest r.2 with
      | .error e => .error e
      | .ok rs => .ok (r.1 :: rs.1, rs.2)

/-- What one pass of `photon_ppm::postprocess` leaves behind. -/
structure photon_ppm.PassResult where
  st : photon_ppm
  sampler : Sampler
  block : ImageBlock
  /-- Number of photons emitted in the pass, without wrap-around (not in the code). -/
  emitted : ℕ

/-- One iteration of the pass loop of `photon_ppm::postprocess`. -/
def photon_ppm.pass (lib : Lib) (fuel : ℕ) (scene : Scene) (st : photon_ppm) (sampler : Sampler)
    (block : ImageBlock) : Except Fault photon_ppm.PassResult :=
  match emitPhotons fuel scene st.photonCount sampler with
  | .error e => .error e
  | .ok em =>
    let photonTotal := u32 (st.photonTotal + em.photonEmitter)
    match photon_ppm.sweep lib st.alpha em.map photonTotal st.viewPointMap block with
    | .error e => .error e
    | .ok r =>
      .ok ⟨{ st with photonTotal := photonTotal, viewPointMap := r.1, m_photonMap := em.map },
        em.sampler, r.2, em.emitted⟩

/-- The first `n` iterations of the pass loop. -/
def photon_ppm.passes (lib : Lib) (fuel : ℕ) (scene : Scene) :
    ℕ → photon_ppm → Sampler → ImageBlock → Except Fault (photon_ppm × Sampler × ImageBlock)
  | 0, st, sampler, block => .ok (st, sampler, block)
  | n + 1, st, sampler, block =>
    match photon_ppm.pass lib fuel scene st sampler block with
    | .error e => .error e
    | .ok r => photon_ppm.passes lib fuel scene n r.st r.sampler r.block

/-- The call `postprocess(scene, block)`, with the sampler it creates as argument. -/
def photon_ppm.postprocess (lib : Lib) (fuel : ℕ) (scene : Scene) (st : photon_ppm)
    (sampler : Sampler) (block : ImageBlock) :
    Except Fault (photon_ppm × Sampler × ImageBlock) :=
  photon_ppm.passes lib fuel scene st.iteration st sampler block

/-! ## `photon_sppm`: eye paths retraced every pass -/

/-- Pixel record, built as `PixelQueryRecord(pixel, radius, flux, p_nums)`. -/
structure PixelQueryRecord where
  pixel : Point2f
  radius : ℚ
  flux : Color3f
  p_nums : ℚ

/-- Fields of the integrator `photon_sppm`. -/
structure photon_sppm where
  photonCount : ℕ
  photonTotal : ℕ
  iteration : ℕ
  sharedRadius : ℚ
  alpha : ℚ
  PixelMap : List PixelQueryRecord
  m_photonMap : List Photon

/-- The call `Li(scene, sampler, ray, pixel)`: one fresh record is appended. -/
def photon_sppm.Li (st : photon_sppm) (pixel : Point2f) : photon_sppm :=
  { st with PixelMap := st.PixelMap ++ [⟨pixel, st.sharedRadius, Color3f.const 0, 0⟩] }

/-- The photon search an eye path performed (not in the code): the diffuse hit,
the ray that reached it, the throughput there and the indices found. -/
structure Gather where
  its : Intersection
  ray : Ray3f
  throughput : Color3f
  local_photon : List ℕ

/-- What the work on one pixel record leaves behind. -/
structure PixelStep where
  pp : PixelQueryRecord
  block : ImageBlock
  sampler : Sampler
  gather : Option Gather

/-- The `while (true)` of the eye pass of `photon_sppm::postprocess`, started at
hit `its` of `ray`. -/
def photon_sppm.eyePath (lib : Lib) (scene : Scene) (alpha : ℚ) (map : List Photon) :
    ℕ → Intersection → Ray3f → Color3f → ℕ → PixelQueryRecord → ImageBlock → Sampler →
      Except Fault PixelStep
  | 0, _, _, _, _, _, _, _ => .error .outOfFuel
  | fuel + 1, its, ray, throughput, depth, pp, block, sampler =>
    if its.mesh.isEmitter then
      let power := its.mesh.emitter.eval ray.o its.p its.shFrame.n
      .ok ⟨pp, block.put (pp.pixel + Point2f.const (1 / 2)) (some (power * throughput)),
        sampler, none⟩
    else if its.mesh.bsdf.isDiffuse then
      let local_photon := lib.search map its.p pp.radius
      if local_photon.length = 0 then
        .ok ⟨pp, block, sampler, some ⟨its, ray, throughput, local_photon⟩⟩
      else if pp.p_nums + (local_photon.length : ℚ) = 0 then .error .divisionByZero
      else
        let rate : ℚ :=
          (pp.p_nums + alpha * (local_photon.length : ℚ)) / (pp.p_nums + (local_photon.length : ℚ))
        let p_nums := pp.p_nums + (local_photon.length : ℚ) * alpha
        let radius := pp.radius * rate
        match gatherPower map
            (fun photon => its.mesh.bsdf.eval (its.shFrame.toLocal (-ray.d))
              (its.shFrame.toLocal photon.dir))
            local_photon (Color3f.const 0) with
        | .error e => .error e
        | .ok nPower =>
          .ok ⟨{ pp with p_nums := p_nums, radius := radius,
                         flux := (pp.flux + nPower) * rate * throughput },
            block, sampler, some ⟨its, ray, throughput, local_photon⟩⟩
    else
      let xi := sampler.next2D
      let bs := its.mesh.bsdf.sample (its.shFrame.toLocal (-ray.d)) xi.1
      if bs.1.maxCoeff = 0 then .ok ⟨pp, block, xi.2, none⟩
      else
        let ro : Ray3f := ⟨its.p, its.shFrame.toWorld bs.2⟩
        match scene.rayIntersect ro with
        | none => .ok ⟨pp, block, xi.2, none⟩
        | some next_its =>
          match russianRoulette depth (throughput * bs.1) xi.2 with
          | .terminate smp => .ok ⟨pp, block, smp, none⟩
          | .divisionByZero => .error .divisionByZero
          | .survive depth1 throughput1 smp =>
            photon_sppm.eyePath lib scene alpha map fuel next_its ro throughput1 depth1 pp
              block smp

/-- Body of `for (auto &pp : PixelMap)`: jittered camera ray, eye path, then the
write of the current estimate. -/
def photon_sppm.updatePixel (lib : Lib) (fuel : ℕ) (scene : Scene) (alpha : ℚ)
    (map : List Photon) (photonTotal : ℕ) (pp : PixelQueryRecord) (block : ImageBlock)
    (sampler : Sampler) : Except Fault PixelStep :=
  let xi := sampler.next2D
  let ray := scene.sampleRay (pp.pixel + xi.1)
  let traced : Except Fault PixelStep :=
    match scene.rayIntersect ray with
    | none => .ok ⟨pp, block, xi.2, none⟩
    | some its =>
      photon_sppm.eyePath lib scene alpha map fuel its ray (Color3f.const 1) 0 pp block xi.2
  match traced with
  | .error e => .error e
  | .ok s =>
    let pos := s.pp.pixel + Point2f.const (1 / 2)
    let power := s.pp.flux.divs? ((photonTotal : ℚ) * M_PI * s.pp.radius * s.pp.radius)
    .ok ⟨s.pp, s.block.put pos power, s.sampler, s.gather⟩

/-- Record of the work on one pixel in a pass (not in the code): the record
before, the record after and the photon search performed, if any. -/
structure PixelTrace where
  before : PixelQueryRecord
  after : PixelQueryRecord
  gather : Option Gather

/-- The sweep `for (auto &pp : PixelMap)`: the traces of the records in order,
the block and the sampler afterwards. -/
def photon_sppm.sweep (lib : Lib) (fuel : ℕ) (scene : Scene) (alpha : ℚ) (map : List Photon)
    (photonTotal : ℕ) :
    List PixelQueryRecord → ImageBlock → Sampler →
      Except Fault (List PixelTrace × ImageBlock × Sampler)
  | [], block, sampler => .ok ([], block, sampler)
  | pp :: rest, block, sampler =>
    match photon_sppm.updatePixel lib fuel scene alpha map photonTotal pp block sampler with
    | .error e => .error e
    | .ok s =>
      match photon_sppm.sweep lib fuel scene alpha map photonTotal rest s.block s.sampler with
      | .error e => .error e
      | .ok rs => .ok (⟨pp, s.pp, s.gather⟩ :: rs.1, rs.2)

/-- What one pass of `photon_sppm::postprocess` leaves behind. -/
structure photon_sppm.PassResult where
  st : photon_sppm
  sampler : Sampler
  block : ImageBlock
  /-- Number of photons emitted in the pass, without wrap-around (not in the code). -/
  emitted : ℕ
  /-- One trace per pixel record, in order (not in the code). -/
  traces : List PixelTrace

/-- One iteration of the pass loop of `photon_sppm::postprocess`. -/
def photon_sppm.pass (lib : Lib) (fuel : ℕ) (scene : Scene) (st : photon_sppm) (sampler : Sampler)
    (block : ImageBlock) : Except Fault photon_sppm.PassResult :=
  match emitPhotons fuel scene st.photonCount sampler with
  | .error e => .error e
  | .ok em =>
    let photonTotal := u32 (st.photonTotal + em.photonEmitter)
    match photon_sppm.sweep lib fuel scene st.alpha em.map photonTotal st.PixelMap block
        em.sampler with
    | .error e => .error e
    | .ok r =>
      .ok ⟨{ st with photonTotal := photonTotal, PixelMap := r.1.map PixelTrace.after,
                     m_photonMap := em.map },
        r.2.2, r.2.1, em.emitted, r.1⟩

/-- The first `n` iterations of the pass loop. -/
def photon_sppm.passes (lib : Lib) (fuel : ℕ) (scene : Scene) :
    ℕ → photon_sppm → Sampler → ImageBlock → Except Fault (photon_sppm × Sampler × ImageBlock)
  | 0, st, sampler, block => .ok (st, sampler, block)
  | n + 1, st, sampler, block =>
    match photon_sppm.pass lib fuel scene st sampler block with
    | .error e => .error e
    | .ok r => photon_sppm.passes lib fuel scene n r.st r.sampler r.block

/-- The call `postprocess(scene, block)`, with the sampler it creates as argument. -/
def photon_sppm.postprocess (lib : Lib) (fuel : ℕ) (scene : Scene) (st : photon_sppm)
    (sampler : Sampler) (block : ImageBlock) :
    Except Fault (photon_sppm × Sampler × ImageBlock) :=
  photon_sppm.passes lib fuel scene st.iteration st sampler block

/-! ## The eye pass of `photon_sppm` with non-finite throughput

The loops above end a run at a roulette division by zero.  The code does not
stop there: `(0, 0, 0) / 0` stores NaN in every channel of the throughput and
the loop goes on.  The definitions below follow that: `none` is the colour
whose three channels are NaN, every product or quotient with it is NaN again,
and a comparison with NaN is false. -/

/-- What the work on one pixel leaves behind when the flux may be NaN (`none`). -/
structure NaNStep where
  radius : ℚ
  p_nums : ℚ
  flux : Option Color3f
  block : ImageBlock
  sampler : Sampler

/-- The `while (true)` of the eye pass of `photon_sppm::postprocess` with a
throughput that may be NaN.  A roulette division by `q = 0` of the throughput
`(0, 0, 0)` leaves NaN and the loop goes on (one draw taken, depth unchanged);
with a NaN throughput `q` is NaN, `next1D() > q` is false and the division
leaves NaN.  A zero divisor under a throughput with a non-zero channel (a
negative one) would give infinite channels and still ends the run. -/
def photon_sppm.eyePathNaN (lib : Lib) (scene : Scene) (alpha : ℚ) (map : List Photon) :
    ℕ → Intersection → Ray3f → Option Color3f → ℕ → PixelQueryRecord → ImageBlock → Sampler →
      Except Fault NaNStep
  | 0, _, _, _, _, _, _, _ => .error .outOfFuel
  | fuel + 1, its, ray, throughput, depth, pp, block, sampler =>
    if its.mesh.isEmitter then
      let power := its.mesh.emitter.eval ray.o its.p its.shFrame.n
      .ok ⟨pp.radius, pp.p_nums, some pp.flux,
        block.put (pp.pixel + Point2f.const (1 / 2)) (throughput.map (fun t => power * t)),
        sampler⟩
    else if its.mesh.bsdf.isDiffuse then
      let local_photon := lib.search map its.p pp.radius
      if local_photon.length = 0 then .ok ⟨pp.radius, pp.p_nums, some pp.flux, block, sampler⟩
      else if pp.p_nums + (local_photon.length : ℚ) = 0 then .error .divisionByZero
      else
        let rate : ℚ :=
          (pp.p_nums + alpha * (local_photon.length : ℚ)) / (pp.p_nums + (local_photon.length : ℚ))
        let p_nums := pp.p_nums + (local_photon.length : ℚ) * alpha
        let radius := pp.radius * rate
        match gatherPower map
            (fun photon => its.mesh.bsdf.eval (its.shFrame.toLocal (-ray.d))
              (its.shFrame.toLocal photon.dir))
            local_photon (Color3f.const 0) with
        | .error e => .error e
        | .ok nPower =>
          .ok ⟨radius, p_nums, throughput.map (fun t => (pp.flux + nPower) * rate * t), block,
            sampler⟩
    else
      let xi := sampler.next2D
      let bs := its.mesh.bsdf.sample (its.shFrame.toLocal (-ray.d)) xi.1
      if bs.1.maxCoeff = 0 then .ok ⟨pp.radius, pp.p_nums, some pp.flux, block, xi.2⟩
      else
        let ro : Ray3f := ⟨its.p, its.shFrame.toWorld bs.2⟩
        match scene.rayIntersect ro with
        | none => .ok ⟨pp.radius, pp.p_nums, some pp.flux, block, xi.2⟩
        | some next_its =>
          match throughput with
          | none =>
            if depth < LEAST_DEPTH then
              photon_sppm.eyePathNaN lib scene alpha map fuel next_its ro none (depth + 1) pp
                block xi.2
            else
              photon_sppm.eyePathNaN lib scene alpha map fuel next_its ro none depth pp block
                xi.2.next1D.2
          | some t =>
            match russianRoulette depth (t * bs.1) xi.2 with
            | .terminate smp => .ok ⟨pp.radius, pp.p_nums, some pp.flux, block, smp⟩
            | .survive depth1 t1 smp =>
              photon_sppm.eyePathNaN lib scene alpha map fuel next_its ro (some t1) depth1 pp
                block smp
            | .divisionByZero =>
              if t * bs.1 = Color3f.const 0 then
                photon_sppm.eyePathNaN lib scene alpha map fuel next_its ro none depth pp block
                  xi.2.next1D.2
              else .error .divisionByZero

/-- Body of `for (auto &pp : PixelMap)` with a flux that may be NaN: jittered
camera ray, eye path, then the write of the current estimate. -/
def photon_sppm.updatePixelNaN (lib : Lib) (fuel : ℕ) (scene : Scene) (alpha : ℚ)
    (map : List Photon) (photonTotal : ℕ) (pp : PixelQueryRecord) (block : ImageBlock)
    (sampler : Sampler) : Except Fault NaNStep :=
  let xi := sampler.next2D
  let ray := scene.sampleRay (pp.pixel + xi.1)
  let traced : Except Fault NaNStep :=
    match scene.rayIntersect ray with
    | none => .ok ⟨pp.radius, pp.p_nums, some pp.flux, block, xi.2⟩
    | some its =>
      photon_sppm.eyePathNaN lib scene alpha map fuel its ray (some (Color3f.const 1)) 0 pp block
        xi.2
  match traced with
  | .error e => .error e
  | .ok s =>
    let pos := pp.pixel + Point2f.const (1 / 2)
    let power :=
      s.flux.bind (fun flux => flux.divs? ((photonTotal : ℚ) * M_PI * s.radius * s.radius))
    .ok ⟨s.radius, s.p_nums, s.flux, s.block.put pos power, s.sampler⟩

/-- One pass of `photon_sppm::postprocess` over a single pixel record with a
flux that may be NaN: the emission phase, `photonTotal += photonEmitter`, then
the work on the pixel. -/
def photon_sppm.passOnePixelNaN (lib : Lib) (fuel : ℕ) (scene : Scene) (st : photon_sppm)
    (pp : PixelQueryRecord) (sampler : Sampler) (block : ImageBlock) : Except Fault NaNStep :=
  match emitPhotons fuel scene st.photonCount sampler with
  | .error e => .error e
  | .ok em =>
    photon_sppm.updatePixelNaN lib fuel scene st.alpha em.map
      (u32 (st.photonTotal + em.photonEmitter)) pp block em.sampler

/-! ## Observations on results -/

/-- The fault a run ended with, if any. -/
def fault? {α : Type} : Except Fault α → Option Fault
  | .error e => some e
  | .ok _ => none

/-- Whether a roulette block executes `throughput /= q` with `q = 0`. -/
def Roulette.dividesByZero : Roulette → Bool
  | .divisionByZero => true
  | _ => false

/-- Every value the material and the emitter of a mesh return has non-negative
channels. -/
def Mesh.NonNeg (m : Mesh) : Prop :=
  (∀ wi xi, (m.bsdf.sample wi xi).1.NonNeg) ∧ (∀ a c, (m.bsdf.eval a c).NonNeg) ∧
  (∀ ref p n, (m.emitter.eval ref p n).NonNeg) ∧
  (∀ s n, (m.emitter.samplePhoton s n).1.power.NonNeg)

/-- Every mesh of the scene, listed or hit by a ray, returns non-negative values. -/
def Scene.NonNeg (scene : Scene) : Prop :=
  (∀ m ∈ scene.meshes, m.NonNeg) ∧
  (∀ ray its, scene.rayIntersect ray = some its → its.mesh.NonNeg)

/-- Viewpoint record on a mesh with non-negative values, holding non-negative
power, non-negative throughput and a non-negative count. -/
def ViewQueryRecord.WellFormed (vp : ViewQueryRecord) : Prop :=
  vp.its.mesh.NonNeg ∧ vp.power.NonNeg ∧ vp.albedo.NonNeg ∧ 0 ≤ vp.p_nums

/-- Pixel record holding non-negative flux and a non-negative count. -/
def PixelQueryRecord.WellFormed (pp : PixelQueryRecord) : Prop :=
  pp.flux.NonNeg ∧ 0 ≤ pp.p_nums

/-- Section 4.4: new accumulated power/flux =
(old accumulated power/flux + local sum) · ratio · throughput, channel by channel. -/
def fluxRule (old localSum : Color3f) (ratio : ℚ) (throughput : Color3f) : Color3f :=
  (old + localSum) * ratio * throughput

/-! ## Concrete library functions and a small scene -/

/-- Largest `j ≤ k` with `j * j ≤ n`. -/
def isqrtAux (n : ℕ) : ℕ → ℕ
  | 0 => 0
  | k + 1 => if (k + 1) * (k + 1) ≤ n then k + 1 else isqrtAux n k

/-- A rational square root: exact on squares of rationals, rounded down to a
multiple of `1 / den` otherwise. -/
def qsqrt (x : ℚ) : ℚ :=
  (isqrtAux (x.num.toNat * x.den) (x.num.toNat * x.den) : ℚ) / (x.den : ℚ)

/-- Modelled from the spec: `PointKDTree::search` is not among the sources; by
section 4.1 the query returns every stored photon whose position lies within
`radius` of the centre (closed ball, Euclidean distance).  Indices are listed
in storage order. -/
def ballSearch (map : List Photon) (p : Vector3f) (radius : ℚ) : List ℕ :=
  (List.range map.length).filter fun i =>
    match map[i]? with
    | some photon => decide (0 ≤ radius ∧ photon.pos.distSq p ≤ radius * radius)
    | none => false

namespace Demo

/-- Library with the rational square root and the closed-ball search. -/
def lib : Lib := ⟨qsqrt, ballSearch⟩

/-- Sampler whose every draw is one half. -/
def sampler : Sampler := ⟨fun _ => 1 / 2, 0⟩

/-- Diffuse material of albedo one half. -/
def diffuse : BSDF :=
  ⟨true, fun _ _ => (Color3f.const (1 / 2), ⟨0, 0, 1⟩), fun _ _ => Color3f.const (1 / 2)⟩

/-- Emitter slot of a mesh that does not emit. -/
def dark : Emitter := ⟨fun _ _ _ => Color3f.const 0, fun s _ => (⟨⟨0, 0, 0⟩, ⟨0, 0, 0⟩, Color3f.const 0⟩, s)⟩

/-- Emitter of radiance two that sends unit-power photons straight down from height one. -/
def glow : Emitter :=
  ⟨fun _ _ _ => Color3f.const 2,
   fun s _ => (⟨⟨0, 0, 1⟩, ⟨0, 0, -1⟩, Color3f.const 1⟩, s.next2D.2)⟩

/-- Diffuse ground. -/
def floor : Mesh := ⟨false, diffuse, dark⟩

/-- Diffuse area light. -/
def lamp : Mesh := ⟨true, diffuse, glow⟩

/-- Shading frame aligned with the world axes. -/
def frame : Frame := ⟨id, id, ⟨0, 0, 1⟩⟩

/-- Material that is neither diffuse nor emitting: it keeps the direction and
returns albedo one quarter. -/
def glass : BSDF := ⟨false, fun wi _ => (Color3f.const (1 / 4), wi), fun _ _ => Color3f.const 0⟩

/-- Specular pane. -/
def pane : Mesh := ⟨false, glass, dark⟩

/-- Hit on the ground at `(x, y, 0)`. -/
def floorAt (x y : ℚ) : Intersection := ⟨⟨x, y, 0⟩, frame, floor⟩

/-- Hit on the light at height one. -/
def lampHit : Intersection := ⟨⟨0, 0, 1⟩, frame, lamp⟩

/-- Hit on the pane at height three. -/
def paneHit : Intersection := ⟨⟨0, 0, 3⟩, frame, pane⟩

/-- Ground, light and pane: a ray leaving height one hits the ground straight
below its origin, a ray leaving height two hits the light, a ray leaving height
three hits the pane (at height three again), all others escape.  Camera rays
leave height one above the sampled position. -/
def scene : Scene :=
  ⟨[floor, lamp, pane],
   fun ray =>
     if ray.o.z = 1 then some (floorAt ray.o.x ray.o.y)
     else if ray.o.z = 2 then some lampHit
     else if ray.o.z = 3 then some paneHit
     else none,
   fun px => ⟨⟨px.x, px.y, 1⟩, ⟨0, 0, -1⟩⟩⟩

/-- The same geometry without the light. -/
def unlit : Scene := { scene with meshes := [floor, pane] }

/-- Viewpoint on the ground below the light, unit radius, nothing gathered yet. -/
def groundPoint : ViewQueryRecord :=
  ⟨floorAt 0 0, ⟨0, 0⟩, ⟨0, 0, 1⟩, Color3f.const 0, 1, Color3f.const 1, 0⟩

/-- Viewpoint on the ground five units away, unit radius, nothing gathered yet. -/
def farPoint : ViewQueryRecord :=
  ⟨floorAt 5 0, ⟨5, 0⟩, ⟨0, 0, 1⟩, Color3f.const 0, 1, Color3f.const 1, 0⟩

/-- Viewpoint on the light with radius two, holding the emitted radiance. -/
def lampPoint : ViewQueryRecord :=
  ⟨lampHit, ⟨1, 0⟩, ⟨0, 0, 1⟩, Color3f.const 2, 2, Color3f.const 1, 0⟩

/-- Integrator `photon_ppm` with a budget of `photonCount` photons per pass, two
passes, initial radius one and `alpha` one quarter. -/
def ppm (photonCount : ℕ) (records : List ViewQueryRecord) : photon_ppm :=
  ⟨photonCount, 0, 2, 1, 1 / 4, records, []⟩

/-- Fresh pixel record with unit radius. -/
def pixel (x y : ℚ) : PixelQueryRecord := ⟨⟨x, y⟩, 1, Color3f.const 0, 0⟩

/-- Integrator `photon_sppm` with a budget of `photonCount` photons per pass, two
passes, initial radius one and `alpha` one quarter. -/
def sppm (photonCount : ℕ) (records : List PixelQueryRecord) : photon_sppm :=
  ⟨photonCount, 0, 2, 1, 1 / 4, records, []⟩

/-- Sampler whose every draw is exactly zero. -/
def still : Sampler := ⟨fun _ => 0, 0⟩

/-- Specular material that keeps the direction and reflects red only: albedo `(1, 0, 0)`. -/
def red : BSDF := ⟨false, fun wi _ => (⟨1, 0, 0⟩, wi), fun _ _ => Color3f.const 0⟩

/-- Specular material that keeps the direction and reflects green only: albedo `(0, 1, 0)`. -/
def green : BSDF := ⟨false, fun wi _ => (⟨0, 1, 0⟩, wi), fun _ _ => Color3f.const 0⟩

/-- Hit on the red pane at height four. -/
def redHit : Intersection := ⟨⟨0, 0, 4⟩, frame, ⟨false, red, dark⟩⟩

/-- Hit on the green pane at height five. -/
def greenHit : Intersection := ⟨⟨0, 0, 5⟩, frame, ⟨false, green, dark⟩⟩

/-- Light, red pane and green pane: a ray leaving height one or five hits the red
pane, a ray leaving height four (the red pane) hits the green pane, all others
escape.  Camera rays leave height one. -/
def prism : Scene :=
  ⟨[lamp, ⟨false, red, dark⟩, ⟨false, green, dark⟩],
   fun ray =>
     if ray.o.z = 1 then some redHit
     else if ray.o.z = 4 then some greenHit
     else if ray.o.z = 5 then some redHit
     else none,
   fun px => ⟨⟨px.x, px.y, 1⟩, ⟨0, 0, -1⟩⟩⟩

/-- Emitter of radiance two that sends unit-power photons straight down from height two. -/
def beam : Emitter :=
  ⟨fun _ _ _ => Color3f.const 2,
   fun s _ => (⟨⟨0, 0, 2⟩, ⟨0, 0, -1⟩, Color3f.const 1⟩, s.next2D.2)⟩

/-- Hit on a red pane at height `z`. -/
def redAt (z : ℚ) : Intersection := ⟨⟨0, 0, z⟩, frame, ⟨false, red, dark⟩⟩

/-- Hit on a green pane at height `z`. -/
def greenAt (z : ℚ) : Intersection := ⟨⟨0, 0, z⟩, frame, ⟨false, green, dark⟩⟩

/-- Light, diffuse ground and a chain of six panes, red and green in turn, at
heights eleven to sixteen.  A ray leaving height two (the light) hits the ground
at the origin; a ray leaving height one (the camera) hits the first pane, a ray
leaving a pane hits the next one, and a ray leaving the sixth pane hits the
ground at the origin; all others escape. -/
def chain : Scene :=
  ⟨[⟨true, diffuse, beam⟩, floor, ⟨false, red, dark⟩, ⟨false, green, dark⟩],
   fun ray =>
     if ray.o.z = 2 then some (floorAt 0 0)
     else if ray.o.z = 1 then some (redAt 11)
     else if ray.o.z = 11 then some (greenAt 12)
     else if ray.o.z = 12 then some (redAt 13)
     else if ray.o.z = 13 then some (greenAt 14)
     else if ray.o.z = 14 then some (redAt 15)
     else if ray.o.z = 15 then some (greenAt 16)
     else if ray.o.z = 16 then some (floorAt 0 0)
     else none,
   fun px => ⟨⟨px.x, px.y, 1⟩, ⟨0, 0, -1⟩⟩⟩

end Demo

end Nori

/-! # Properties -/

namespace Nori

/-! ## Auxiliary facts -/

theorem Except.exists_ok_of_toBool {ε α : Type} (x : Except ε α) (h : x.toBool = true) :
    ∃ r, x = .ok r := by
  cases x with
  | error e => simp [Except.toBool] at h
  | ok r => exact ⟨r, rfl⟩

namespace Color3f

theorem ext_iff' (a c : Color3f) : a = c ↔ a.r = c.r ∧ a.g = c.g ∧ a.b = c.b := by
  cases a; cases c; simp

@[simp] theorem add_r (a c : Color3f) : (a + c).r = a.r + c.r := rfl
@[simp] theorem add_g (a c : Color3f) : (a + c).g = a.g + c.g := rfl
@[simp] theorem add_b (a c : Color3f) : (a + c).b = a.b + c.b := rfl
@[simp] theorem mul_r (a c : Color3f) : (a * c).r = a.r * c.r := rfl
@[simp] theorem mul_g (a c : Color3f) : (a * c).g = a.g * c.g := rfl
@[simp] theorem mul_b (a c : Color3f) : (a * c).b = a.b * c.b := rfl
@[simp] theorem scale_r (a : Color3f) (s : ℚ) : (a * s).r = a.r * s := rfl
@[simp] theorem scale_g (a : Color3f) (s : ℚ) : (a * s).g = a.g * s := rfl
@[simp] theorem scale_b (a : Color3f) (s : ℚ) : (a * s).b = a.b * s := rfl
@[simp] theorem divs_r (a : Color3f) (s : ℚ) : (a / s).r = a.r / s := rfl
@[simp] theorem divs_g (a : Color3f) (s : ℚ) : (a / s).g = a.g / s := rfl
@[simp] theorem divs_b (a : Color3f) (s : ℚ) : (a / s).b = a.b / s := rfl
@[simp] theorem const_r (v : ℚ) : (const v).r = v := rfl
@[simp] theorem const_g (v : ℚ) : (const v).g = v := rfl
@[simp] theorem const_b (v : ℚ) : (const v).b = v := rfl
@[simp] theorem zero_r : (0 : Color3f).r = 0 := rfl
@[simp] theorem zero_g : (0 : Color3f).g = 0 := rfl
@[simp] theorem zero_b : (0 : Color3f).b = 0 := rfl

theorem const_zero : const 0 = 0 := rfl

theorem add_assoc' (a c d : Color3f) : a + c + d = a + (c + d) := by
  rw [ext_iff']; simp [add_assoc]

theorem add_zero' (a : Color3f) : a + 0 = a := by
  rw [ext_iff']; simp

theorem nonneg_const {v : ℚ} (h : 0 ≤ v) : (const v).NonNeg := ⟨h, h, h⟩

theorem nonneg_add {a c : Color3f} (ha : a.NonNeg) (hc : c.NonNeg) : (a + c).NonNeg :=
  ⟨add_nonneg ha.1 hc.1, add_nonneg ha.2.1 hc.2.1, add_nonneg ha.2.2 hc.2.2⟩

theorem nonneg_mul {a c : Color3f} (ha : a.NonNeg) (hc : c.NonNeg) : (a * c).NonNeg :=
  ⟨mul_nonneg ha.1 hc.1, mul_nonneg ha.2.1 hc.2.1, mul_nonneg ha.2.2 hc.2.2⟩

theorem nonneg_scale {a : Color3f} {s : ℚ} (ha : a.NonNeg) (hs : 0 ≤ s) : (a * s).NonNeg :=
  ⟨mul_nonneg ha.1 hs, mul_nonneg ha.2.1 hs, mul_nonneg ha.2.2 hs⟩

theorem nonneg_divs {a : Color3f} {s : ℚ} (ha : a.NonNeg) (hs : 0 ≤ s) : (a / s).NonNeg :=
  ⟨div_nonneg ha.1 hs, div_nonneg ha.2.1 hs, div_nonneg ha.2.2 hs⟩

theorem maxCoeff_nonneg {a : Color3f} (ha : a.NonNeg) : 0 ≤ a.maxCoeff :=
  le_max_of_le_right ha.2.2

end Color3f

/-- The accumulation loop returns the start value plus the sum of the
contributions of the photons the indices point to. -/
theorem gatherPower_ok {map : List Photon} {fr : Photon → Color3f} :
    ∀ (l : List ℕ) (acc S : Color3f), gatherPower map fr l acc = .ok S →
      ∃ found : List Photon, List.Forall₂ (fun idx photon => map[idx]? = some photon) l found ∧
        S = acc + (found.map (fun photon => fr photon * photon.power)).sum := by
  intro l
  induction l with
  | nil =>
    intro acc S h
    simp only [gatherPower] at h
    cases h
    exact ⟨[], List.Forall₂.nil, by simp [Color3f.add_zero']⟩
  | cons idx rest ih =>
    intro acc S h
    simp only [gatherPower] at h
    split at h
    · cases h
    · rename_i photon hp
      obtain ⟨found, hf, hS⟩ := ih _ _ h
      refine ⟨photon :: found, List.Forall₂.cons hp hf, ?_⟩
      rw [hS, List.map_cons, List.sum_cons, Color3f.add_assoc']

/-- Effect of the viewpoint update on the record, when it returns. -/
theorem photon_ppm.updateViewPoint_ok {lib : Lib} {alpha : ℚ} {map : List Photon}
    {photonTotal : ℕ} {vp : ViewQueryRecord} {block : ImageBlock}
    {r : ViewQueryRecord × ImageBlock}
    (h : photon_ppm.updateViewPoint lib alpha map photonTotal vp block = .ok r) :
    (lib.search map vp.its.p vp.radius = [] → r.1 = vp) ∧
    (lib.search map vp.its.p vp.radius ≠ [] →
      vp.p_nums + ((lib.search map vp.its.p vp.radius).length : ℚ) ≠ 0 ∧
      ∃ nPower,
        gatherPower map
          (fun photon => vp.its.mesh.bsdf.eval (vp.its.shFrame.toLocal photon.dir)
            (vp.its.shFrame.toLocal vp.dir))
          (lib.search map vp.its.p vp.radius) (Color3f.const 0) = .ok nPower ∧
        r.1 = { vp with
          radius := vp.radius * lib.sqrt
            ((vp.p_nums + alpha * ((lib.search map vp.its.p vp.radius).length : ℚ)) /
              (vp.p_nums + ((lib.search map vp.its.p vp.radius).length : ℚ))),
          power := (vp.power + nPower) *
            ((vp.p_nums + alpha * ((lib.search map vp.its.p vp.radius).length : ℚ)) /
              (vp.p_nums + ((lib.search map vp.its.p vp.radius).length : ℚ))) * vp.albedo,
          p_nums := vp.p_nums + ((lib.search map vp.its.p vp.radius).length : ℚ) * alpha }) := by
  unfold photon_ppm.updateViewPoint at h
  simp only [List.length_eq_zero] at h
  by_cases h0 : lib.search map vp.its.p vp.radius = []
  · rw [if_pos h0] at h
    cases h
    exact ⟨fun _ => rfl, fun hne => absurd h0 hne⟩
  · rw [if_neg h0] at h
    by_cases h1 : vp.p_nums + ((lib.search map vp.its.p vp.radius).length : ℚ) = 0
    · rw [if_pos h1] at h
      cases h
    · rw [if_neg h1] at h
      refine ⟨fun he => absurd he h0, fun _ => ⟨h1, ?_⟩⟩
      split at h
      · cases h
      · rename_i nPower hg
        cases h
        exact ⟨nPower, hg, rfl⟩

/-- The viewpoint sweep updates the records one by one, in order. -/
theorem photon_ppm.ppm_sweep_ok {lib : Lib} {alpha : ℚ} {map : List Photon} {photonTotal : ℕ} :
    ∀ (vps : List ViewQueryRecord) (block : ImageBlock) (r : List ViewQueryRecord × ImageBlock),
      photon_ppm.sweep lib alpha map photonTotal vps block = .ok r →
      List.Forall₂
        (fun vp vp' => ∃ b b',
          photon_ppm.updateViewPoint lib alpha map photonTotal vp b = .ok (vp', b'))
        vps r.1 := by
  intro vps
  induction vps with
  | nil =>
    intro block r h
    simp only [photon_ppm.sweep] at h
    cases h
    exact List.Forall₂.nil
  | cons vp rest ih =>
    intro block r h
    simp only [photon_ppm.sweep] at h
    split at h
    · cases h
    · rename_i r1 h1
      split at h
      · cases h
      · rename_i rs hrs
        cases h
        exact List.Forall₂.cons ⟨block, r1.2, h1⟩ (ih _ _ hrs)

/-- What a completed pass of `photon_ppm` is made of. -/
theorem photon_ppm.ppm_pass_ok {lib : Lib} {fuel : ℕ} {scene : Scene} {st : photon_ppm}
    {sampler : Sampler} {block : ImageBlock} {r : photon_ppm.PassResult}
    (h : photon_ppm.pass lib fuel scene st sampler block = .ok r) :
    ∃ em, emitPhotons fuel scene st.photonCount sampler = .ok em ∧
      r.st.m_photonMap = em.map ∧ r.emitted = em.emitted ∧
      r.st.photonTotal = u32 (st.photonTotal + em.photonEmitter) ∧
      r.st.alpha = st.alpha ∧ r.st.photonCount = st.photonCount ∧
      r.st.iteration = st.iteration ∧
      List.Forall₂
        (fun vp vp' => ∃ b b',
          photon_ppm.updateViewPoint lib st.alpha r.st.m_photonMap r.st.photonTotal vp b =
            .ok (vp', b'))
        st.viewPointMap r.st.viewPointMap := by
  unfold photon_ppm.pass at h
  split at h
  · cases h
  · rename_i em hem
    dsimp only at h
    split at h
    · cases h
    · rename_i rs hrs
      cases h
      exact ⟨em, hem, rfl, rfl, rfl, rfl, rfl, rfl, photon_ppm.ppm_sweep_ok _ _ _ hrs⟩


/-- Effect of an eye path on the pixel record, when it returns: with no photon
search, or an empty one, the record is untouched; otherwise count, radius and
flux are rewritten from the values before. -/
theorem photon_sppm.eyePath_ok {lib : Lib} {scene : Scene} {alpha : ℚ} {map : List Photon} :
    ∀ (fuel : ℕ) (its : Intersection) (ray : Ray3f) (throughput : Color3f) (depth : ℕ)
      (pp : PixelQueryRecord) (block : ImageBlock) (sampler : Sampler) (s : PixelStep),
      photon_sppm.eyePath lib scene alpha map fuel its ray throughput depth pp block sampler
        = .ok s →
      (s.gather = none → s.pp = pp) ∧
      (∀ g, s.gather = some g →
        g.local_photon = lib.search map g.its.p pp.radius ∧
        (g.local_photon = [] → s.pp = pp) ∧
        (g.local_photon ≠ [] →
          pp.p_nums + (g.local_photon.length : ℚ) ≠ 0 ∧
          ∃ nPower,
            gatherPower map
              (fun photon => g.its.mesh.bsdf.eval (g.its.shFrame.toLocal (-g.ray.d))
                (g.its.shFrame.toLocal photon.dir))
              g.local_photon (Color3f.const 0) = .ok nPower ∧
            s.pp = { pp with
              p_nums := pp.p_nums + (g.local_photon.length : ℚ) * alpha,
              radius := pp.radius *
                ((pp.p_nums + alpha * (g.local_photon.length : ℚ)) /
                  (pp.p_nums + (g.local_photon.length : ℚ))),
              flux := (pp.flux + nPower) *
                ((pp.p_nums + alpha * (g.local_photon.length : ℚ)) /
                  (pp.p_nums + (g.local_photon.length : ℚ))) * g.throughput })) := by
  intro fuel
  induction fuel with
  | zero =>
    intro its ray throughput depth pp block sampler s h
    simp only [photon_sppm.eyePath] at h
    cases h
  | succ fuel ih =>
    intro its ray throughput depth pp block sampler s h
    simp only [photon_sppm.eyePath, List.length_eq_zero] at h
    by_cases hE : its.mesh.isEmitter = true
    · rw [if_pos hE] at h
      cases h
      exact ⟨fun _ => rfl, fun g hg => by cases hg⟩
    · rw [if_neg hE] at h
      by_cases hD : its.mesh.bsdf.isDiffuse = true
      · rw [if_pos hD] at h
        by_cases h0 : lib.search map its.p pp.radius = []
        · rw [if_pos h0] at h
          cases h
          refine ⟨fun hn => (by cases hn), fun g hg => ?_⟩
          cases hg
          exact ⟨rfl, fun _ => rfl, fun hne => absurd h0 hne⟩
        · rw [if_neg h0] at h
          by_cases h1 : pp.p_nums + ((lib.search map its.p pp.radius).length : ℚ) = 0
          · rw [if_pos h1] at h
            cases h
          · rw [if_neg h1] at h
            split at h
            · cases h
            · rename_i nPower hg
              cases h
              refine ⟨fun hn => (by cases hn), fun g hg' => ?_⟩
              cases hg'
              exact ⟨rfl, fun he => absurd he h0, fun _ => ⟨h1, nPower, hg, rfl⟩⟩
      · rw [if_neg hD] at h
        split_ifs at h with hA
        · cases h
          exact ⟨fun _ => rfl, fun g hg => by cases hg⟩
        · split at h
          · cases h
            exact ⟨fun _ => rfl, fun g hg => by cases hg⟩
          · split at h
            · cases h
              exact ⟨fun _ => rfl, fun g hg => by cases hg⟩
            · cases h
            · exact ih _ _ _ _ _ _ _ _ h

/-- Effect of the work on one pixel on its record, when it returns. -/
theorem photon_sppm.updatePixel_ok {lib : Lib} {fuel : ℕ} {scene : Scene} {alpha : ℚ}
    {map : List Photon} {photonTotal : ℕ} {pp : PixelQueryRecord} {block : ImageBlock}
    {sampler : Sampler} {s : PixelStep}
    (h : photon_sppm.updatePixel lib fuel scene alpha map photonTotal pp block sampler = .ok s) :
    (s.gather = none → s.pp = pp) ∧
    (∀ g, s.gather = some g →
      g.local_photon = lib.search map g.its.p pp.radius ∧
      (g.local_photon = [] → s.pp = pp) ∧
      (g.local_photon ≠ [] →
        pp.p_nums + (g.local_photon.length : ℚ) ≠ 0 ∧
        ∃ nPower,
          gatherPower map
            (fun photon => g.its.mesh.bsdf.eval (g.its.shFrame.toLocal (-g.ray.d))
              (g.its.shFrame.toLocal photon.dir))
            g.local_photon (Color3f.const 0) = .ok nPower ∧
          s.pp = { pp with
            p_nums := pp.p_nums + (g.local_photon.length : ℚ) * alpha,
            radius := pp.radius *
              ((pp.p_nums + alpha * (g.local_photon.length : ℚ)) /
                (pp.p_nums + (g.local_photon.length : ℚ))),
            flux := (pp.flux + nPower) *
              ((pp.p_nums + alpha * (g.local_photon.length : ℚ)) /
                (pp.p_nums + (g.local_photon.length : ℚ))) * g.throughput })) := by
  unfold photon_sppm.updatePixel at h
  dsimp only at h
  split at h
  · cases h
  · rename_i s0 hs0
    cases h
    split at hs0
    · cases hs0
      exact ⟨fun _ => rfl, fun g hg => by cases hg⟩
    · exact photon_sppm.eyePath_ok _ _ _ _ _ _ _ _ s0 hs0

/-- The pixel sweep works through the records one by one, in order. -/
theorem photon_sppm.sppm_sweep_ok {lib : Lib} {fuel : ℕ} {scene : Scene} {alpha : ℚ}
    {map : List Photon} {photonTotal : ℕ} :
    ∀ (pps : List PixelQueryRecord) (block : ImageBlock) (sampler : Sampler)
      (r : List PixelTrace × ImageBlock × Sampler),
      photon_sppm.sweep lib fuel scene alpha map photonTotal pps block sampler = .ok r →
      r.1.map PixelTrace.before = pps ∧
      ∀ t ∈ r.1, ∃ b smp s,
        photon_sppm.updatePixel lib fuel scene alpha map photonTotal t.before b smp = .ok s ∧
          s.pp = t.after ∧ s.gather = t.gather := by
  intro pps
  induction pps with
  | nil =>
    intro block sampler r h
    simp only [photon_sppm.sweep] at h
    cases h
    exact ⟨rfl, fun t ht => by cases ht⟩
  | cons pp rest ih =>
    intro block sampler r h
    simp only [photon_sppm.sweep] at h
    split at h
    · cases h
    · rename_i s hs
      split at h
      · cases h
      · rename_i rs hrs
        cases h
        obtain ⟨hb, ht⟩ := ih _ _ _ hrs
        refine ⟨by simp [hb], fun t htm => ?_⟩
        rcases List.mem_cons.mp htm with rfl | htm
        · exact ⟨block, sampler, s, hs, rfl, rfl⟩
        · exact ht t htm

/-- What a completed pass of `photon_sppm` is made of. -/
theorem photon_sppm.sppm_pass_ok {lib : Lib} {fuel : ℕ} {scene : Scene} {st : photon_sppm}
    {sampler : Sampler} {block : ImageBlock} {r : photon_sppm.PassResult}
    (h : photon_sppm.pass lib fuel scene st sampler block = .ok r) :
    ∃ em, emitPhotons fuel scene st.photonCount sampler = .ok em ∧
      r.st.m_photonMap = em.map ∧ r.emitted = em.emitted ∧
      r.st.photonTotal = u32 (st.photonTotal + em.photonEmitter) ∧
      r.st.alpha = st.alpha ∧ r.st.photonCount = st.photonCount ∧
      r.st.iteration = st.iteration ∧
      r.traces.map PixelTrace.before = st.PixelMap ∧
      r.st.PixelMap = r.traces.map PixelTrace.after ∧
      ∀ t ∈ r.traces, ∃ b smp s,
        photon_sppm.updatePixel lib fuel scene st.alpha r.st.m_photonMap r.st.photonTotal
          t.before b smp = .ok s ∧ s.pp = t.after ∧ s.gather = t.gather := by
  unfold photon_sppm.pass at h
  split at h
  · cases h
  · rename_i em hem
    dsimp only at h
    split at h
    · cases h
    · rename_i rs hrs
      cases h
      obtain ⟨hb, ht⟩ := photon_sppm.sppm_sweep_ok _ _ _ _ hrs
      exact ⟨em, hem, rfl, rfl, rfl, rfl, rfl, rfl, hb, rfl, ht⟩


theorem Color3f.zero_add' (a : Color3f) : Color3f.const 0 + a = a := by
  rw [Color3f.ext_iff']; simp

/-- With a non-negative count, at least one photon found and `alpha` strictly
between zero and one, the ratio `(N + alpha * M) / (N + M)` lies in `[0, 1]`
and its denominator is positive. -/
theorem rate_bounds {N alpha : ℚ} {M : ℕ} (hN : 0 ≤ N) (h0 : 0 < alpha) (h1 : alpha < 1)
    (hM : 0 < M) :
    0 < N + (M : ℚ) ∧ 0 ≤ (N + alpha * (M : ℚ)) / (N + (M : ℚ)) ∧
      (N + alpha * (M : ℚ)) / (N + (M : ℚ)) ≤ 1 := by
  have hM' : (0 : ℚ) < (M : ℚ) := by exact_mod_cast hM
  have hden : 0 < N + (M : ℚ) := by linarith
  refine ⟨hden, div_nonneg (by nlinarith) hden.le, ?_⟩
  rw [div_le_one hden]
  nlinarith

theorem isqrtAux_sq_le (n : ℕ) : ∀ k, isqrtAux n k * isqrtAux n k ≤ n := by
  intro k
  induction k with
  | zero => simp [isqrtAux]
  | succ k ih =>
    simp only [isqrtAux]
    split_ifs with h
    · exact h
    · exact ih

/-- The rational square root maps `[0, 1]` into `(-∞, 1]`. -/
theorem qsqrt_le_one (x : ℚ) (_h0 : 0 ≤ x) (h1 : x ≤ 1) : qsqrt x ≤ 1 := by
  unfold qsqrt
  have hden : (0 : ℚ) < (x.den : ℚ) := by exact_mod_cast x.den_pos
  rw [div_le_one hden]
  have hx : (x.num : ℚ) ≤ (x.den : ℚ) := by
    have := Rat.num_div_den x
    rw [← this, div_le_one hden] at h1
    exact h1
  have hx' : x.num ≤ (x.den : ℤ) := by exact_mod_cast hx
  have hn : x.num.toNat ≤ x.den := by omega
  have hsq := isqrtAux_sq_le (x.num.toNat * x.den) (x.num.toNat * x.den)
  have hle : isqrtAux (x.num.toNat * x.den) (x.num.toNat * x.den) ≤ x.den := by
    by_contra hc
    push_neg at hc
    have h2 : x.den * x.den < isqrtAux (x.num.toNat * x.den) (x.num.toNat * x.den) *
        isqrtAux (x.num.toNat * x.den) (x.num.toNat * x.den) := Nat.mul_self_lt_mul_self hc
    have h3 : x.num.toNat * x.den ≤ x.den * x.den := Nat.mul_le_mul_right _ hn
    omega
  exact_mod_cast hle

/-! ## The density-estimation update -/

/-- C1, conservation under zero find.  In a completed pass of `photon_ppm` every
viewpoint record whose search (at its position and radius, in the photon map of
the pass) is empty comes out identical.  In a completed pass of `photon_sppm`
the search a pixel's eye path performs is the search at its diffuse hit with the
record's radius, and a record whose eye path performs no search, or an empty
one, comes out identical. -/
theorem conservation_under_zero_find (lib : Lib) (fuel : ℕ) (scene : Scene) :
    (∀ (st : photon_ppm) (sampler : Sampler) (block : ImageBlock) (r : photon_ppm.PassResult),
      photon_ppm.pass lib fuel scene st sampler block = .ok r →
      List.Forall₂
        (fun vp vp' => lib.search r.st.m_photonMap vp.its.p vp.radius = [] → vp' = vp)
        st.viewPointMap r.st.viewPointMap) ∧
    (∀ (st : photon_sppm) (sampler : Sampler) (block : ImageBlock) (r : photon_sppm.PassResult),
      photon_sppm.pass lib fuel scene st sampler block = .ok r →
      r.traces.map PixelTrace.before = st.PixelMap ∧
      r.traces.map PixelTrace.after = r.st.PixelMap ∧
      ∀ t ∈ r.traces,
        (∀ g, t.gather = some g →
          g.local_photon = lib.search r.st.m_photonMap g.its.p t.before.radius) ∧
        ((∀ g, t.gather = some g → g.local_photon = []) → t.after = t.before)) := by
  constructor
  · intro st sampler block r h
    obtain ⟨em, -, -, -, -, -, -, -, hF⟩ := photon_ppm.ppm_pass_ok h
    refine hF.imp ?_
    rintro vp vp' ⟨b, b', hu⟩ hs
    exact (photon_ppm.updateViewPoint_ok hu).1 hs
  · intro st sampler block r h
    obtain ⟨em, -, -, -, -, -, -, -, hb, ha, ht⟩ := photon_sppm.sppm_pass_ok h
    refine ⟨hb, ha.symm, fun t htm => ?_⟩
    obtain ⟨b, smp, s, hu, hpp, hg⟩ := ht t htm
    have hs := photon_sppm.updatePixel_ok hu
    rw [hpp, hg] at hs
    refine ⟨fun g hgs => (hs.2 g hgs).1, fun hall => ?_⟩
    cases hgt : t.gather with
    | none => exact hs.1 hgt
    | some g => exact (hs.2 g hgt).2.1 (hall g hgt)

/-- The accumulation loop returns when every index points into the map. -/
theorem gatherPower_returns {map : List Photon} {fr : Photon → Color3f} :
    ∀ (l : List ℕ) (acc : Color3f), (∀ idx ∈ l, idx < map.length) →
      ∃ S, gatherPower map fr l acc = .ok S := by
  intro l
  induction l with
  | nil =>
    intro acc _
    exact ⟨acc, rfl⟩
  | cons idx rest ih =>
    intro acc hl
    have hidx : idx < map.length := hl idx (List.mem_cons_self _ _)
    obtain ⟨S, hS⟩ := ih (acc + fr map[idx] * map[idx].power)
      (fun k hk => hl k (List.mem_cons_of_mem _ hk))
    refine ⟨S, ?_⟩
    simp only [gatherPower, List.getElem?_eq_getElem hidx]
    exact hS

/-- C2, radius rule of `photon_ppm`.  In a completed pass every viewpoint record
with old radius `r` and old count `N ≥ 0` for which the search returns `M > 0`
photons comes out with radius `r * sqrt ((N + alpha * M) / (N + M))` and count
`N + alpha * M`.  Moreover the update of such a record does return (with these
values) as soon as the indices found point into the photon map. -/
theorem ppm_radius_update (lib : Lib) (fuel : ℕ) (scene : Scene) :
    (∀ (st : photon_ppm) (sampler : Sampler) (block : ImageBlock) (r : photon_ppm.PassResult),
      photon_ppm.pass lib fuel scene st sampler block = .ok r →
      List.Forall₂
        (fun vp vp' =>
          0 ≤ vp.p_nums → 0 < (lib.search r.st.m_photonMap vp.its.p vp.radius).length →
          vp'.radius = vp.radius * lib.sqrt
            ((vp.p_nums +
                st.alpha * ((lib.search r.st.m_photonMap vp.its.p vp.radius).length : ℚ)) /
              (vp.p_nums + ((lib.search r.st.m_photonMap vp.its.p vp.radius).length : ℚ))) ∧
          vp'.p_nums =
            vp.p_nums + st.alpha * ((lib.search r.st.m_photonMap vp.its.p vp.radius).length : ℚ))
        st.viewPointMap r.st.viewPointMap) ∧
    (∀ (alpha : ℚ) (map : List Photon) (photonTotal : ℕ) (vp : ViewQueryRecord)
      (block : ImageBlock),
      0 ≤ vp.p_nums → 0 < (lib.search map vp.its.p vp.radius).length →
      (∀ idx ∈ lib.search map vp.its.p vp.radius, idx < map.length) →
      ∃ r, photon_ppm.updateViewPoint lib alpha map photonTotal vp block = .ok r ∧
        r.1.radius = vp.radius * lib.sqrt
          ((vp.p_nums + alpha * ((lib.search map vp.its.p vp.radius).length : ℚ)) /
            (vp.p_nums + ((lib.search map vp.its.p vp.radius).length : ℚ))) ∧
        r.1.p_nums = vp.p_nums + alpha * ((lib.search map vp.its.p vp.radius).length : ℚ)) := by
  constructor
  · intro st sampler block r h
    obtain ⟨em, -, -, -, -, -, -, -, hF⟩ := photon_ppm.ppm_pass_ok h
    refine hF.imp ?_
    rintro vp vp' ⟨b, b', hu⟩ - hM
    have hne : lib.search r.st.m_photonMap vp.its.p vp.radius ≠ [] :=
      List.ne_nil_of_length_pos hM
    obtain ⟨-, nPower, -, hr⟩ := (photon_ppm.updateViewPoint_ok hu).2 hne
    simp only at hr
    subst hr
    exact ⟨rfl, by simp only; ring⟩
  · intro alpha map photonTotal vp block hN hM hidx
    have hM' : (0 : ℚ) < ((lib.search map vp.its.p vp.radius).length : ℚ) := by
      exact_mod_cast hM
    have hden : vp.p_nums + ((lib.search map vp.its.p vp.radius).length : ℚ) ≠ 0 := by
      linarith
    obtain ⟨S, hS⟩ := @gatherPower_returns map
      (fun photon => vp.its.mesh.bsdf.eval (vp.its.shFrame.toLocal photon.dir)
        (vp.its.shFrame.toLocal vp.dir))
      (lib.search map vp.its.p vp.radius) (Color3f.const 0) hidx
    have hlen : ¬ (lib.search map vp.its.p vp.radius).length = 0 := by omega
    unfold photon_ppm.updateViewPoint
    simp only [if_neg hlen, if_neg hden, hS]
    exact ⟨_, rfl, rfl, by simp only; ring⟩

/-- C4, flux update.  In a completed pass of either integrator a record for
which `M > 0` photons are found (for `photon_sppm`: by the search at the diffuse
hit of its eye path, with the record's radius) comes out with power/flux
`(F + S) * ((N + alpha * M) / (N + M)) * T`, where `F` and `N` are the record's
power/flux and count before the pass, `T` is the eye-path throughput and `S` is
the sum over the found photons of BSDF value times photon power
(`fluxRule F S ratio T` is `(F + S) * ratio * T`); each record of `photon_sppm`
comes out as the work on that pixel leaves it.  Moreover the update does
commit that value: the viewpoint update of `photon_ppm` returns with it, and so
does the eye loop of `photon_sppm` at a diffuse hit that is not an emitter, for
`N >= 0`, `M > 0` and indices that point into the photon map.  At a hit that is
neither emitter nor diffuse the eye loop goes on from the next hit with the
throughput the roulette block hands on, and the work on a pixel starts the eye
loop at the camera ray's hit with throughput one. -/
theorem flux_update (lib : Lib) (fuel : ℕ) (scene : Scene) :
    (∀ (st : photon_ppm) (sampler : Sampler) (block : ImageBlock) (r : photon_ppm.PassResult),
      photon_ppm.pass lib fuel scene st sampler block = .ok r →
      List.Forall₂
        (fun vp vp' =>
          0 < (lib.search r.st.m_photonMap vp.its.p vp.radius).length →
          ∃ found : List Photon,
            List.Forall₂ (fun idx photon => r.st.m_photonMap[idx]? = some photon)
              (lib.search r.st.m_photonMap vp.its.p vp.radius) found ∧
            vp'.power =
              fluxRule vp.power
                (found.map (fun photon =>
                  vp.its.mesh.bsdf.eval (vp.its.shFrame.toLocal photon.dir)
                    (vp.its.shFrame.toLocal vp.dir) * photon.power)).sum
                ((vp.p_nums +
                    st.alpha * ((lib.search r.st.m_photonMap vp.its.p vp.radius).length : ℚ)) /
                  (vp.p_nums + ((lib.search r.st.m_photonMap vp.its.p vp.radius).length : ℚ)))
                vp.albedo)
        st.viewPointMap r.st.viewPointMap) ∧
    (∀ (st : photon_sppm) (sampler : Sampler) (block : ImageBlock) (r : photon_sppm.PassResult),
      photon_sppm.pass lib fuel scene st sampler block = .ok r →
      r.traces.map PixelTrace.before = st.PixelMap ∧
      r.traces.map PixelTrace.after = r.st.PixelMap ∧
      (∀ t ∈ r.traces, ∃ b smp s,
        photon_sppm.updatePixel lib fuel scene st.alpha r.st.m_photonMap r.st.photonTotal
          t.before b smp = .ok s ∧ s.pp = t.after ∧ s.gather = t.gather) ∧
      ∀ t ∈ r.traces, ∀ g, t.gather = some g → 0 < g.local_photon.length →
        g.local_photon = lib.search r.st.m_photonMap g.its.p t.before.radius ∧
        ∃ found : List Photon,
          List.Forall₂ (fun idx photon => r.st.m_photonMap[idx]? = some photon)
            g.local_photon found ∧
          t.after.flux =
            fluxRule t.before.flux
              (found.map (fun photon =>
                g.its.mesh.bsdf.eval (g.its.shFrame.toLocal (-g.ray.d))
                  (g.its.shFrame.toLocal photon.dir) * photon.power)).sum
              ((t.before.p_nums + st.alpha * (g.local_photon.length : ℚ)) /
                (t.before.p_nums + (g.local_photon.length : ℚ)))
              g.throughput) ∧
    (∀ (alpha : ℚ) (map : List Photon) (photonTotal : ℕ) (vp : ViewQueryRecord)
      (block : ImageBlock),
      0 ≤ vp.p_nums → 0 < (lib.search map vp.its.p vp.radius).length →
      (∀ idx ∈ lib.search map vp.its.p vp.radius, idx < map.length) →
      ∃ r, ∃ found : List Photon,
        photon_ppm.updateViewPoint lib alpha map photonTotal vp block = .ok r ∧
        List.Forall₂ (fun idx photon => map[idx]? = some photon)
          (lib.search map vp.its.p vp.radius) found ∧
        r.1.power =
          fluxRule vp.power
            (found.map (fun photon =>
              vp.its.mesh.bsdf.eval (vp.its.shFrame.toLocal photon.dir)
                (vp.its.shFrame.toLocal vp.dir) * photon.power)).sum
            ((vp.p_nums + alpha * ((lib.search map vp.its.p vp.radius).length : ℚ)) /
              (vp.p_nums + ((lib.search map vp.its.p vp.radius).length : ℚ)))
            vp.albedo) ∧
    (∀ (alpha : ℚ) (map : List Photon) (n : ℕ) (its : Intersection) (ray : Ray3f)
      (throughput : Color3f) (depth : ℕ) (pp : PixelQueryRecord) (block : ImageBlock)
      (sampler : Sampler),
      its.mesh.isEmitter = false → its.mesh.bsdf.isDiffuse = true →
      0 ≤ pp.p_nums → 0 < (lib.search map its.p pp.radius).length →
      (∀ idx ∈ lib.search map its.p pp.radius, idx < map.length) →
      ∃ s, ∃ found : List Photon,
        photon_sppm.eyePath lib scene alpha map (n + 1) its ray throughput depth pp block
          sampler = .ok s ∧
        s.gather = some ⟨its, ray, throughput, lib.search map its.p pp.radius⟩ ∧
        List.Forall₂ (fun idx photon => map[idx]? = some photon)
          (lib.search map its.p pp.radius) found ∧
        s.pp.flux =
          fluxRule pp.flux
            (found.map (fun photon =>
              its.mesh.bsdf.eval (its.shFrame.toLocal (-ray.d))
                (its.shFrame.toLocal photon.dir) * photon.power)).sum
            ((pp.p_nums + alpha * ((lib.search map its.p pp.radius).length : ℚ)) /
              (pp.p_nums + ((lib.search map its.p pp.radius).length : ℚ)))
            throughput) ∧
    (∀ (alpha : ℚ) (map : List Photon) (n : ℕ) (its next_its : Intersection) (ray : Ray3f)
      (throughput throughput1 : Color3f) (depth depth1 : ℕ) (pp : PixelQueryRecord)
      (block : ImageBlock) (sampler sampler1 : Sampler),
      its.mesh.isEmitter = false → its.mesh.bsdf.isDiffuse = false →
      (its.mesh.bsdf.sample (its.shFrame.toLocal (-ray.d)) sampler.next2D.1).1.maxCoeff ≠ 0 →
      scene.rayIntersect
        ⟨its.p, its.shFrame.toWorld
          (its.mesh.bsdf.sample (its.shFrame.toLocal (-ray.d)) sampler.next2D.1).2⟩
        = some next_its →
      russianRoulette depth
        (throughput * (its.mesh.bsdf.sample (its.shFrame.toLocal (-ray.d)) sampler.next2D.1).1)
        sampler.next2D.2 = .survive depth1 throughput1 sampler1 →
      photon_sppm.eyePath lib scene alpha map (n + 1) its ray throughput depth pp block sampler
        = photon_sppm.eyePath lib scene alpha map n next_its
            ⟨its.p, its.shFrame.toWorld
              (its.mesh.bsdf.sample (its.shFrame.toLocal (-ray.d)) sampler.next2D.1).2⟩
            throughput1 depth1 pp block sampler1) ∧
    (∀ (alpha : ℚ) (map : List Photon) (photonTotal : ℕ) (pp : PixelQueryRecord)
      (block : ImageBlock) (sampler : Sampler) (its : Intersection) (s : PixelStep),
      scene.rayIntersect (scene.sampleRay (pp.pixel + sampler.next2D.1)) = some its →
      photon_sppm.eyePath lib scene alpha map fuel its
        (scene.sampleRay (pp.pixel + sampler.next2D.1)) (Color3f.const 1) 0 pp block
        sampler.next2D.2 = .ok s →
      ∃ s', photon_sppm.updatePixel lib fuel scene alpha map photonTotal pp block sampler
          = .ok s' ∧ s'.pp = s.pp ∧ s'.gather = s.gather) := by
  refine ⟨?_, ?_, ?_, ?_, ?_, ?_⟩
  · intro st sampler block r h
    obtain ⟨em, -, -, -, -, -, -, -, hF⟩ := photon_ppm.ppm_pass_ok h
    refine hF.imp ?_
    rintro vp vp' ⟨b, b', hu⟩ hM
    have hne : lib.search r.st.m_photonMap vp.its.p vp.radius ≠ [] :=
      List.ne_nil_of_length_pos hM
    obtain ⟨-, nPower, hg, hr⟩ := (photon_ppm.updateViewPoint_ok hu).2 hne
    obtain ⟨found, hf, hS⟩ := gatherPower_ok _ _ _ hg
    simp only at hr
    subst hr
    refine ⟨found, hf, ?_⟩
    simp only [hS, Color3f.zero_add', fluxRule]
  · intro st sampler block r h
    obtain ⟨em, -, -, -, -, -, -, -, hb, ha, ht⟩ := photon_sppm.sppm_pass_ok h
    refine ⟨hb, ha.symm, ht, fun t htm g hg hM => ?_⟩
    obtain ⟨b, smp, s, hu, hpp, hgs⟩ := ht t htm
    have hs := photon_sppm.updatePixel_ok hu
    rw [hpp, hgs] at hs
    obtain ⟨-, nPower, hgp, hr⟩ := (hs.2 g hg).2.2 (List.ne_nil_of_length_pos hM)
    obtain ⟨found, hf, hS⟩ := gatherPower_ok _ _ _ hgp
    refine ⟨(hs.2 g hg).1, found, hf, ?_⟩
    rw [hr]
    simp only [hS, Color3f.zero_add', fluxRule]
  · intro alpha map photonTotal vp block hN hM hidx
    have hM' : (0 : ℚ) < ((lib.search map vp.its.p vp.radius).length : ℚ) := by
      exact_mod_cast hM
    have hden : vp.p_nums + ((lib.search map vp.its.p vp.radius).length : ℚ) ≠ 0 := by
      linarith
    obtain ⟨S, hS⟩ := @gatherPower_returns map
      (fun photon => vp.its.mesh.bsdf.eval (vp.its.shFrame.toLocal photon.dir)
        (vp.its.shFrame.toLocal vp.dir))
      (lib.search map vp.its.p vp.radius) (Color3f.const 0) hidx
    obtain ⟨found, hf, hsum⟩ := gatherPower_ok _ _ _ hS
    have hlen : ¬ (lib.search map vp.its.p vp.radius).length = 0 := by omega
    unfold photon_ppm.updateViewPoint
    simp only [if_neg hlen, if_neg hden, hS]
    refine ⟨_, found, rfl, hf, ?_⟩
    simp only [hsum, Color3f.zero_add', fluxRule]
  · intro alpha map n its ray throughput depth pp block sampler hE hD hN hM hidx
    have hM' : (0 : ℚ) < ((lib.search map its.p pp.radius).length : ℚ) := by
      exact_mod_cast hM
    have hden : pp.p_nums + ((lib.search map its.p pp.radius).length : ℚ) ≠ 0 := by
      linarith
    obtain ⟨S, hS⟩ := @gatherPower_returns map
      (fun photon => its.mesh.bsdf.eval (its.shFrame.toLocal (-ray.d))
        (its.shFrame.toLocal photon.dir))
      (lib.search map its.p pp.radius) (Color3f.const 0) hidx
    obtain ⟨found, hf, hsum⟩ := gatherPower_ok _ _ _ hS
    have hlen : ¬ (lib.search map its.p pp.radius).length = 0 := by omega
    simp only [photon_sppm.eyePath, hE, hD, Bool.false_eq_true, if_false, if_true,
      if_neg hlen, if_neg hden, hS]
    refine ⟨_, found, rfl, rfl, hf, ?_⟩
    simp only [hsum, Color3f.zero_add', fluxRule]
  · intro alpha map n its next_its ray throughput throughput1 depth depth1 pp block sampler
      sampler1 hE hD hA hnext hrr
    simp only [photon_sppm.eyePath, hE, hD, Bool.false_eq_true, if_false, if_neg hA, hnext,
      hrr]
  · intro alpha map photonTotal pp block sampler its s hits hs
    unfold photon_sppm.updatePixel
    simp only [hits, hs]
    exact ⟨_, rfl, rfl, rfl⟩

/-- C5, radius monotonic shrink.  Let `sqrt` map `[0, 1]` below one and `alpha`
lie strictly between zero and one.  In a completed pass of either integrator a
record with radius `r ≥ 0` and count `N ≥ 0` for which `M > 0` photons are found
comes out with a radius that is at most `r`. -/
theorem radius_monotonic_shrink (lib : Lib) (fuel : ℕ) (scene : Scene)
    (hsqrt : ∀ x : ℚ, 0 ≤ x → x ≤ 1 → lib.sqrt x ≤ 1) :
    (∀ (st : photon_ppm) (sampler : Sampler) (block : ImageBlock) (r : photon_ppm.PassResult),
      0 < st.alpha → st.alpha < 1 →
      photon_ppm.pass lib fuel scene st sampler block = .ok r →
      List.Forall₂
        (fun vp vp' =>
          0 ≤ vp.radius → 0 ≤ vp.p_nums →
          0 < (lib.search r.st.m_photonMap vp.its.p vp.radius).length →
          vp'.radius ≤ vp.radius)
        st.viewPointMap r.st.viewPointMap) ∧
    (∀ (st : photon_sppm) (sampler : Sampler) (block : ImageBlock) (r : photon_sppm.PassResult),
      0 < st.alpha → st.alpha < 1 →
      photon_sppm.pass lib fuel scene st sampler block = .ok r →
      r.traces.map PixelTrace.before = st.PixelMap ∧
      r.traces.map PixelTrace.after = r.st.PixelMap ∧
      ∀ t ∈ r.traces, 0 ≤ t.before.radius → 0 ≤ t.before.p_nums →
        ∀ g, t.gather = some g → 0 < g.local_photon.length →
          g.local_photon = lib.search r.st.m_photonMap g.its.p t.before.radius ∧
          t.after.radius ≤ t.before.radius) := by
  constructor
  · intro st sampler block r h0 h1 h
    obtain ⟨em, -, -, -, -, -, -, -, hF⟩ := photon_ppm.ppm_pass_ok h
    refine hF.imp ?_
    rintro vp vp' ⟨b, b', hu⟩ hr hN hM
    obtain ⟨-, nPower, -, hv⟩ :=
      (photon_ppm.updateViewPoint_ok hu).2 (List.ne_nil_of_length_pos hM)
    simp only at hv
    subst hv
    obtain ⟨-, hlo, hhi⟩ := rate_bounds hN h0 h1 hM
    simpa using mul_le_mul_of_nonneg_left (hsqrt _ hlo hhi) hr
  · intro st sampler block r h0 h1 h
    obtain ⟨em, -, -, -, -, -, -, -, hb, ha, ht⟩ := photon_sppm.sppm_pass_ok h
    refine ⟨hb, ha.symm, fun t htm hr hN g hg hM => ?_⟩
    obtain ⟨b, smp, s, hu, hpp, hgs⟩ := ht t htm
    have hs := photon_sppm.updatePixel_ok hu
    rw [hpp, hgs] at hs
    obtain ⟨-, nPower, -, hv⟩ := (hs.2 g hg).2.2 (List.ne_nil_of_length_pos hM)
    refine ⟨(hs.2 g hg).1, ?_⟩
    rw [hv]
    obtain ⟨-, -, hhi⟩ := rate_bounds hN h0 h1 hM
    simpa using mul_le_mul_of_nonneg_left hhi hr


/-- Witness for C1: a pass over a near and a far viewpoint, and a pass over a
near and a far pixel. -/
theorem conservation_under_zero_find_witness :
    (∃ r, photon_ppm.pass Demo.lib 3 Demo.scene (Demo.ppm 1 [Demo.groundPoint, Demo.farPoint])
        Demo.sampler [] = .ok r ∧
      List.Forall₂
        (fun vp vp' => Demo.lib.search r.st.m_photonMap vp.its.p vp.radius = [] → vp' = vp)
        (Demo.ppm 1 [Demo.groundPoint, Demo.farPoint]).viewPointMap r.st.viewPointMap) ∧
    (∃ r, photon_sppm.pass Demo.lib 3 Demo.scene (Demo.sppm 1 [Demo.pixel 0 0, Demo.pixel 5 0])
        Demo.sampler [] = .ok r ∧
      ∀ t ∈ r.traces, (∀ g, t.gather = some g → g.local_photon = []) → t.after = t.before) := by
  obtain ⟨r, hr⟩ := Except.exists_ok_of_toBool
    (photon_ppm.pass Demo.lib 3 Demo.scene (Demo.ppm 1 [Demo.groundPoint, Demo.farPoint])
      Demo.sampler []) (by decide!)
  obtain ⟨r', hr'⟩ := Except.exists_ok_of_toBool
    (photon_sppm.pass Demo.lib 3 Demo.scene (Demo.sppm 1 [Demo.pixel 0 0, Demo.pixel 5 0])
      Demo.sampler []) (by decide!)
  exact ⟨⟨r, hr, (conservation_under_zero_find Demo.lib 3 Demo.scene).1 _ _ _ _ hr⟩,
    ⟨r', hr', fun t ht =>
      (((conservation_under_zero_find Demo.lib 3 Demo.scene).2 _ _ _ _ hr').2.2 t ht).2⟩⟩

/-- Witness for C2: a pass over a viewpoint below the light. -/
theorem ppm_radius_update_witness :
    ∃ r, photon_ppm.pass Demo.lib 3 Demo.scene (Demo.ppm 1 [Demo.groundPoint]) Demo.sampler []
        = .ok r ∧
      List.Forall₂
        (fun vp vp' =>
          0 ≤ vp.p_nums → 0 < (Demo.lib.search r.st.m_photonMap vp.its.p vp.radius).length →
          vp'.radius = vp.radius * Demo.lib.sqrt
            ((vp.p_nums +
                (Demo.ppm 1 [Demo.groundPoint]).alpha * ((Demo.lib.search r.st.m_photonMap vp.its.p vp.radius).length : ℚ)) /
              (vp.p_nums + ((Demo.lib.search r.st.m_photonMap vp.its.p vp.radius).length : ℚ))) ∧
          vp'.p_nums = vp.p_nums +
            (Demo.ppm 1 [Demo.groundPoint]).alpha * ((Demo.lib.search r.st.m_photonMap vp.its.p vp.radius).length : ℚ))
        (Demo.ppm 1 [Demo.groundPoint]).viewPointMap r.st.viewPointMap := by
  obtain ⟨r, hr⟩ := Except.exists_ok_of_toBool
    (photon_ppm.pass Demo.lib 3 Demo.scene (Demo.ppm 1 [Demo.groundPoint]) Demo.sampler [])
    (by decide!)
  exact ⟨r, hr, (ppm_radius_update Demo.lib 3 Demo.scene).1 _ _ _ r hr⟩


/-- Witness for C4: a pass of each integrator over a record below the light, the
values committed there (power and flux go from zero to one eighth), and the eye
loop of `photon_sppm` at the diffuse hit below the light with one photon stored
there. -/
theorem flux_update_witness :
    (∃ r, photon_ppm.pass Demo.lib 3 Demo.scene (Demo.ppm 1 [Demo.groundPoint]) Demo.sampler []
        = .ok r ∧
      List.Forall₂
        (fun vp vp' =>
          0 < (Demo.lib.search r.st.m_photonMap vp.its.p vp.radius).length →
          ∃ found : List Photon,
            List.Forall₂ (fun idx photon => r.st.m_photonMap[idx]? = some photon)
              (Demo.lib.search r.st.m_photonMap vp.its.p vp.radius) found ∧
            vp'.power =
              fluxRule vp.power
                (found.map (fun photon =>
                  vp.its.mesh.bsdf.eval (vp.its.shFrame.toLocal photon.dir)
                    (vp.its.shFrame.toLocal vp.dir) * photon.power)).sum
                ((vp.p_nums + (Demo.ppm 1 [Demo.groundPoint]).alpha *
                    ((Demo.lib.search r.st.m_photonMap vp.its.p vp.radius).length : ℚ)) /
                  (vp.p_nums +
                    ((Demo.lib.search r.st.m_photonMap vp.its.p vp.radius).length : ℚ)))
                vp.albedo)
        (Demo.ppm 1 [Demo.groundPoint]).viewPointMap r.st.viewPointMap) ∧
    (∃ r, photon_sppm.pass Demo.lib 3 Demo.scene (Demo.sppm 1 [Demo.pixel 0 0]) Demo.sampler []
        = .ok r ∧
      ∀ t ∈ r.traces, ∀ g, t.gather = some g → 0 < g.local_photon.length →
        g.local_photon = Demo.lib.search r.st.m_photonMap g.its.p t.before.radius ∧
        ∃ found : List Photon,
          List.Forall₂ (fun idx photon => r.st.m_photonMap[idx]? = some photon)
            g.local_photon found ∧
          t.after.flux =
            fluxRule t.before.flux
              (found.map (fun photon =>
                g.its.mesh.bsdf.eval (g.its.shFrame.toLocal (-g.ray.d))
                  (g.its.shFrame.toLocal photon.dir) * photon.power)).sum
              ((t.before.p_nums +
                  (Demo.sppm 1 [Demo.pixel 0 0]).alpha * (g.local_photon.length : ℚ)) /
                (t.before.p_nums + (g.local_photon.length : ℚ)))
              g.throughput) ∧
    (photon_ppm.pass Demo.lib 3 Demo.scene (Demo.ppm 1 [Demo.groundPoint]) Demo.sampler
        []).toOption.map (fun r => r.st.viewPointMap.map (fun vp => vp.power))
      = some [Color3f.const (1 / 8)] ∧
    (photon_sppm.pass Demo.lib 3 Demo.scene (Demo.sppm 1 [Demo.pixel 0 0]) Demo.sampler
        []).toOption.map
      (fun r => r.traces.map (fun t =>
        (t.before.flux, t.gather.map (fun g => (g.local_photon.length, g.throughput)),
          t.after.flux)))
      = some [(Color3f.const 0, some (1, Color3f.const 1), Color3f.const (1 / 8))] ∧
    (∃ s, ∃ found : List Photon,
      photon_sppm.eyePath Demo.lib Demo.scene (1 / 4) [⟨⟨0, 0, 0⟩, ⟨0, 0, 1⟩, Color3f.const 1⟩]
        (0 + 1) (Demo.floorAt 0 0) ⟨⟨0, 0, 1⟩, ⟨0, 0, -1⟩⟩ (Color3f.const 1) 0 (Demo.pixel 0 0) []
        Demo.sampler = .ok s ∧
      s.gather = some ⟨Demo.floorAt 0 0, ⟨⟨0, 0, 1⟩, ⟨0, 0, -1⟩⟩, Color3f.const 1,
        Demo.lib.search [⟨⟨0, 0, 0⟩, ⟨0, 0, 1⟩, Color3f.const 1⟩] (Demo.floorAt 0 0).p
          (Demo.pixel 0 0).radius⟩ ∧
      List.Forall₂
        (fun idx photon =>
          ([⟨⟨0, 0, 0⟩, ⟨0, 0, 1⟩, Color3f.const 1⟩] : List Photon)[idx]? = some photon)
        (Demo.lib.search [⟨⟨0, 0, 0⟩, ⟨0, 0, 1⟩, Color3f.const 1⟩] (Demo.floorAt 0 0).p
          (Demo.pixel 0 0).radius) found ∧
      s.pp.flux =
        fluxRule (Demo.pixel 0 0).flux
          (found.map (fun photon =>
            (Demo.floorAt 0 0).mesh.bsdf.eval
              ((Demo.floorAt 0 0).shFrame.toLocal (-(⟨⟨0, 0, 1⟩, ⟨0, 0, -1⟩⟩ : Ray3f).d))
              ((Demo.floorAt 0 0).shFrame.toLocal photon.dir) * photon.power)).sum
          (((Demo.pixel 0 0).p_nums + (1 / 4) *
              ((Demo.lib.search [⟨⟨0, 0, 0⟩, ⟨0, 0, 1⟩, Color3f.const 1⟩] (Demo.floorAt 0 0).p
                (Demo.pixel 0 0).radius).length : ℚ)) /
            ((Demo.pixel 0 0).p_nums +
              ((Demo.lib.search [⟨⟨0, 0, 0⟩, ⟨0, 0, 1⟩, Color3f.const 1⟩] (Demo.floorAt 0 0).p
                (Demo.pixel 0 0).radius).length : ℚ)))
          (Color3f.const 1)) := by
  obtain ⟨r, hr⟩ := Except.exists_ok_of_toBool
    (photon_ppm.pass Demo.lib 3 Demo.scene (Demo.ppm 1 [Demo.groundPoint]) Demo.sampler [])
    (by decide!)
  obtain ⟨r', hr'⟩ := Except.exists_ok_of_toBool
    (photon_sppm.pass Demo.lib 3 Demo.scene (Demo.sppm 1 [Demo.pixel 0 0]) Demo.sampler [])
    (by decide!)
  exact ⟨⟨r, hr, (flux_update Demo.lib 3 Demo.scene).1 _ _ _ _ hr⟩,
    ⟨r', hr', ((flux_update Demo.lib 3 Demo.scene).2.1 _ _ _ _ hr').2.2.2⟩,
    by decide!, by decide!,
    (flux_update Demo.lib 3 Demo.scene).2.2.2.1 (1 / 4)
      [⟨⟨0, 0, 0⟩, ⟨0, 0, 1⟩, Color3f.const 1⟩] 0 (Demo.floorAt 0 0) ⟨⟨0, 0, 1⟩, ⟨0, 0, -1⟩⟩
      (Color3f.const 1) 0 (Demo.pixel 0 0) [] Demo.sampler
      (by decide!) (by decide!) (by decide!) (by decide!) (by decide!)⟩

/-- Witness for C5: a pass of each integrator over a record below the light,
with the rational square root. -/
theorem radius_monotonic_shrink_witness :
    (∃ r, photon_ppm.pass Demo.lib 3 Demo.scene (Demo.ppm 1 [Demo.groundPoint]) Demo.sampler []
        = .ok r ∧
      List.Forall₂
        (fun vp vp' =>
          0 ≤ vp.radius → 0 ≤ vp.p_nums →
          0 < (Demo.lib.search r.st.m_photonMap vp.its.p vp.radius).length →
          vp'.radius ≤ vp.radius)
        (Demo.ppm 1 [Demo.groundPoint]).viewPointMap r.st.viewPointMap) ∧
    (∃ r, photon_sppm.pass Demo.lib 3 Demo.scene (Demo.sppm 1 [Demo.pixel 0 0]) Demo.sampler []
        = .ok r ∧
      ∀ t ∈ r.traces, 0 ≤ t.before.radius → 0 ≤ t.before.p_nums →
        ∀ g, t.gather = some g → 0 < g.local_photon.length →
          g.local_photon = Demo.lib.search r.st.m_photonMap g.its.p t.before.radius ∧
          t.after.radius ≤ t.before.radius) := by
  obtain ⟨r, hr⟩ := Except.exists_ok_of_toBool
    (photon_ppm.pass Demo.lib 3 Demo.scene (Demo.ppm 1 [Demo.groundPoint]) Demo.sampler [])
    (by decide!)
  obtain ⟨r', hr'⟩ := Except.exists_ok_of_toBool
    (photon_sppm.pass Demo.lib 3 Demo.scene (Demo.sppm 1 [Demo.pixel 0 0]) Demo.sampler [])
    (by decide!)
  have hs : ∀ x : ℚ, 0 ≤ x → x ≤ 1 → Demo.lib.sqrt x ≤ 1 := qsqrt_le_one
  exact ⟨⟨r, hr, (radius_monotonic_shrink Demo.lib 3 Demo.scene hs).1 _ _ _ _
      (by decide!) (by decide!) hr⟩,
    ⟨r', hr', ((radius_monotonic_shrink Demo.lib 3 Demo.scene hs).2 _ _ _ _
      (by decide!) (by decide!) hr').2.2⟩⟩

/-- C3, at the failing input.  One pass of `photon_sppm` with `alpha = 1/4` over
a fresh pixel record (radius 1, count 0) whose eye path finds one photon: the
radius committed is `1/4 = r * rate`, while `r * sqrt rate` is `1/2`; also
`(1/4)² ≠ r² * rate`, so no square root is hidden elsewhere. -/
theorem sppm_radius_misses_sqrt :
    (photon_sppm.pass Demo.lib 3 Demo.scene (Demo.sppm 1 [Demo.pixel 0 0]) Demo.sampler
        []).toOption.map
      (fun r => r.traces.map (fun t =>
        (t.before.radius, t.before.p_nums, t.gather.map (fun g => g.local_photon.length),
          t.after.radius)))
      = some [(1, 0, some 1, 1 / 4)] ∧
    (1 : ℚ) * Demo.lib.sqrt ((0 + (1 / 4) * 1) / (0 + 1)) = 1 / 2 ∧
    ((1 / 4 : ℚ) * (1 / 4) ≠ 1 * 1 * ((0 + (1 / 4) * 1) / (0 + 1))) := by
  decide!

/-- C7, at the failing input.  One pass of `photon_ppm` over a viewpoint record
on the light (radius 2, count 0, power 2) near which one photon is stored: after
the deposit of `power * albedo` the record is gathered like any other, so its
radius, count and power change and a second value is written for its pixel. -/
theorem ppm_emitter_record_is_gathered :
    Demo.lampPoint.its.mesh.isEmitter = true ∧
    (Demo.lampPoint.radius, Demo.lampPoint.p_nums, Demo.lampPoint.power)
      = (2, 0, Color3f.const 2) ∧
    (photon_ppm.pass Demo.lib 3 Demo.scene (Demo.ppm 1 [Demo.lampPoint]) Demo.sampler
        []).toOption.map
      (fun r => (r.st.viewPointMap.map (fun vp => (vp.radius, vp.p_nums, vp.power)),
        r.block.map (fun w => (w.1, w.2.isSome)), (r.block.head?).map (fun w => w.2)))
      = some ([(1, 1 / 4, Color3f.const (5 / 8))],
          [(⟨1, 0⟩, true), (⟨1, 0⟩, true)], some (some (Color3f.const 2))) := by
  decide!

/-- With no emitter in the scene and a positive photon budget the emission
phase ends by indexing the empty light list, whatever the fuel. -/
theorem emitPhotons_unlit (fuel : ℕ) (scene : Scene) (photonCount : ℕ) (sampler : Sampler)
    (hl : scene.lights = []) (hc : 0 < photonCount) :
    fault? (emitPhotons (fuel + 1) scene photonCount sampler) = some .indexOutOfRange := by
  simp [emitPhotons, emitLoop, hl, hc, fault?]

/-- C8, at the failing input.  In a scene whose mesh list holds no emitter, with
a photon budget of one, the emission phase and with it a pass of either
integrator does not return: the first loop iteration indexes the empty light
list. -/
theorem unlit_scene_indexes_empty_lights :
    Demo.unlit.lights.length = 0 ∧
    fault? (emitPhotons 3 Demo.unlit 1 Demo.sampler) = some .indexOutOfRange ∧
    fault? (photon_ppm.pass Demo.lib 3 Demo.unlit (Demo.ppm 1 [Demo.groundPoint]) Demo.sampler [])
      = some .indexOutOfRange ∧
    fault? (photon_sppm.pass Demo.lib 3 Demo.unlit (Demo.sppm 1 [Demo.pixel 0 0]) Demo.sampler [])
      = some .indexOutOfRange := by
  decide!


/-! ### Emission counters -/

theorem u32_succ (e : ℕ) : u32 (u32 e + 1) = u32 (e + 1) := by
  unfold u32
  omega

/-- A light path leaves the emission counters alone. -/
theorem photonPath_counters {scene : Scene} {power : Color3f} :
    ∀ (fuel : ℕ) (its : Intersection) (Ray : Ray3f) (wait_albedo : Color3f) (depth : ℕ)
      (st em : Emission),
      photonPath scene power fuel its Ray wait_albedo depth st = .ok em →
      em.photonEmitter = st.photonEmitter ∧ em.emitted = st.emitted := by
  intro fuel
  induction fuel with
  | zero =>
    intro its Ray wait_albedo depth st em h
    simp only [photonPath] at h
    cases h
  | succ fuel ih =>
    intro its Ray wait_albedo depth st em h
    simp only [photonPath] at h
    have h1 : (deposit power its Ray wait_albedo st).photonEmitter = st.photonEmitter ∧
        (deposit power its Ray wait_albedo st).emitted = st.emitted := by
      unfold deposit
      split_ifs <;> exact ⟨rfl, rfl⟩
    split_ifs at h with hA
    · cases h
      exact h1
    · split at h
      · cases h
        exact h1
      · split at h
        · cases h
          exact h1
        · cases h
        · obtain ⟨ha, hb⟩ := ih _ _ _ _ _ _ h
          exact ⟨ha.trans h1.1, hb.trans h1.2⟩

/-- The budget loop keeps `photonEmitter` equal to the wrapped number of
iterations, and makes at least one iteration when the budget is not yet met. -/
theorem emitLoop_counters {pathFuel : ℕ} {scene : Scene} {lights : List Mesh}
    {photonCount : ℕ} :
    ∀ (fuel : ℕ) (st em : Emission), st.photonEmitter = u32 st.emitted →
      emitLoop pathFuel scene lights photonCount fuel st = .ok em →
      em.photonEmitter = u32 em.emitted ∧ st.emitted ≤ em.emitted ∧
        (st.storedPhotons < photonCount → st.emitted < em.emitted) := by
  intro fuel
  induction fuel with
  | zero =>
    intro st em hinv h
    simp only [emitLoop] at h
    split_ifs at h with hc
    cases h
    exact ⟨hinv, le_refl _, fun hlt => absurd hlt hc⟩
  | succ fuel ih =>
    intro st em hinv h
    simp only [emitLoop] at h
    split_ifs at h with hc
    · split at h
      · cases h
      · rename_i areaLight hl
        split at h
        · obtain ⟨ha, hb, -⟩ := ih _ _ (by simp only [hinv, u32_succ]) h
          simp only at hb
          exact ⟨ha, by omega, fun _ => by omega⟩
        · split at h
          · cases h
          · rename_i st2 hp
            obtain ⟨hpe, hem⟩ := photonPath_counters _ _ _ _ _ _ _ hp
            simp only at hpe hem
            obtain ⟨ha, hb, -⟩ := ih st2 em (by rw [hpe, hem, hinv, u32_succ]) h
            exact ⟨ha, by omega, fun _ => by omega⟩
    · cases h
      exact ⟨hinv, le_refl _, fun hlt => absurd hlt hc⟩

/-- With a positive budget a completed emission phase has emitted at least one
photon, and `photonEmitter` is that number modulo `2 ^ 32`. -/
theorem emitPhotons_counters {fuel : ℕ} {scene : Scene} {photonCount : ℕ} {sampler : Sampler}
    {em : Emission} (h : emitPhotons fuel scene photonCount sampler = .ok em) :
    em.photonEmitter = u32 em.emitted ∧ (0 < photonCount → 1 ≤ em.emitted) := by
  obtain ⟨ha, -, hc⟩ := emitLoop_counters fuel _ em rfl h
  exact ⟨ha, fun hp => hc hp⟩

theorem u32_add_u32 (a e : ℕ) : u32 (a + u32 e) = (a + e) % 2 ^ 32 := by
  unfold u32
  omega

/-- With a budget of zero the emission phase returns at once: nothing stored,
nothing emitted, sampler untouched. -/
theorem emitPhotons_zero_budget (fuel : ℕ) (scene : Scene) (sampler : Sampler) :
    emitPhotons fuel scene 0 sampler = .ok ⟨[], 0, 0, 0, sampler⟩ := by
  cases fuel <;> simp [emitPhotons, emitLoop]

/-- C9, as amended.  In a completed pass of either integrator `photonTotal`
afterwards is the old value plus the number of photons emitted in the pass,
modulo `2 ^ 32`.  With a photon budget of zero nothing is emitted and
`photonTotal` (a 32-bit value) is unchanged.  With a positive budget at least
one photon is emitted, and `photonTotal` is strictly greater than before
whenever the sum stays below `2 ^ 32`. -/
theorem photon_total_increases (lib : Lib) (fuel : ℕ) (scene : Scene) :
    (∀ (st : photon_ppm) (sampler : Sampler) (block : ImageBlock) (r : photon_ppm.PassResult),
      photon_ppm.pass lib fuel scene st sampler block = .ok r →
      r.st.photonTotal = (st.photonTotal + r.emitted) % 2 ^ 32 ∧
      (st.photonCount = 0 →
        r.emitted = 0 ∧ (st.photonTotal < 2 ^ 32 → r.st.photonTotal = st.photonTotal)) ∧
      (0 < st.photonCount →
        1 ≤ r.emitted ∧
          (st.photonTotal + r.emitted < 2 ^ 32 → st.photonTotal < r.st.photonTotal))) ∧
    (∀ (st : photon_sppm) (sampler : Sampler) (block : ImageBlock) (r : photon_sppm.PassResult),
      photon_sppm.pass lib fuel scene st sampler block = .ok r →
      r.st.photonTotal = (st.photonTotal + r.emitted) % 2 ^ 32 ∧
      (st.photonCount = 0 →
        r.emitted = 0 ∧ (st.photonTotal < 2 ^ 32 → r.st.photonTotal = st.photonTotal)) ∧
      (0 < st.photonCount →
        1 ≤ r.emitted ∧
          (st.photonTotal + r.emitted < 2 ^ 32 → st.photonTotal < r.st.photonTotal))) := by
  have key : ∀ (count total total1 emitted : ℕ) (sampler : Sampler) (em : Emission),
      emitPhotons fuel scene count sampler = .ok em → emitted = em.emitted →
      total1 = u32 (total + em.photonEmitter) →
      total1 = (total + emitted) % 2 ^ 32 ∧
      (count = 0 → emitted = 0 ∧ (total < 2 ^ 32 → total1 = total)) ∧
      (0 < count → 1 ≤ emitted ∧ (total + emitted < 2 ^ 32 → total < total1)) := by
    intro count total total1 emitted sampler em hem he ht
    obtain ⟨hw, h1⟩ := emitPhotons_counters hem
    rw [hw, u32_add_u32, ← he] at ht
    refine ⟨ht, fun hc => ?_, fun hc => ?_⟩
    · subst hc
      rw [emitPhotons_zero_budget] at hem
      cases hem
      simp only at he
      subst he
      refine ⟨rfl, fun hlt => ?_⟩
      rw [ht, Nat.add_zero, Nat.mod_eq_of_lt hlt]
    · have h1' := h1 hc
      rw [← he] at h1'
      refine ⟨h1', fun hlt => ?_⟩
      rw [ht, Nat.mod_eq_of_lt hlt]
      omega
  constructor
  · intro st sampler block r h
    obtain ⟨em, hem, -, he, ht, -, -⟩ := photon_ppm.ppm_pass_ok h
    exact key _ _ _ _ _ em hem he ht
  · intro st sampler block r h
    obtain ⟨em, hem, -, he, ht, -, -⟩ := photon_sppm.sppm_pass_ok h
    exact key _ _ _ _ _ em hem he ht

/-- Witness for C9 as amended: a pass of each integrator with a budget of one
photon, started from a running total of seven, which becomes eight. -/
theorem photon_total_increases_witness :
    (∃ r, photon_ppm.pass Demo.lib 3 Demo.scene
        { Demo.ppm 1 [Demo.groundPoint] with photonTotal := 7 } Demo.sampler [] = .ok r ∧
      r.st.photonTotal = (7 + r.emitted) % 2 ^ 32 ∧
      1 ≤ r.emitted ∧ (7 + r.emitted < 2 ^ 32 → 7 < r.st.photonTotal)) ∧
    (∃ r, photon_sppm.pass Demo.lib 3 Demo.scene
        { Demo.sppm 1 [Demo.pixel 0 0] with photonTotal := 7 } Demo.sampler [] = .ok r ∧
      r.st.photonTotal = (7 + r.emitted) % 2 ^ 32 ∧
      1 ≤ r.emitted ∧ (7 + r.emitted < 2 ^ 32 → 7 < r.st.photonTotal)) ∧
    (photon_ppm.pass Demo.lib 3 Demo.scene
        { Demo.ppm 1 [Demo.groundPoint] with photonTotal := 7 } Demo.sampler
        []).toOption.map (fun r => (r.emitted, r.st.photonTotal)) = some (1, 8) ∧
    (photon_sppm.pass Demo.lib 3 Demo.scene
        { Demo.sppm 1 [Demo.pixel 0 0] with photonTotal := 7 } Demo.sampler
        []).toOption.map (fun r => (r.emitted, r.st.photonTotal)) = some (1, 8) := by
  obtain ⟨r, hr⟩ := Except.exists_ok_of_toBool
    (photon_ppm.pass Demo.lib 3 Demo.scene
      { Demo.ppm 1 [Demo.groundPoint] with photonTotal := 7 } Demo.sampler [])
    (by decide!)
  obtain ⟨r', hr'⟩ := Except.exists_ok_of_toBool
    (photon_sppm.pass Demo.lib 3 Demo.scene
      { Demo.sppm 1 [Demo.pixel 0 0] with photonTotal := 7 } Demo.sampler [])
    (by decide!)
  have h := (photon_total_increases Demo.lib 3 Demo.scene).1 _ _ _ r hr
  have h' := (photon_total_increases Demo.lib 3 Demo.scene).2 _ _ _ r' hr'
  exact ⟨⟨r, hr, h.1, h.2.2 (by decide)⟩, ⟨r', hr', h'.1, h'.2.2 (by decide)⟩,
    by decide!, by decide!⟩

/-- C9 as stated fails.  In a scene with one emitter, a pass with photon budget
zero leaves `photonTotal` where it was, at zero and at seven alike (both
integrators), and a pass that emits one photon from `photonTotal = 2 ^ 32 - 1`
wraps it to zero. -/
theorem photon_total_stalls_or_wraps :
    Demo.scene.lights.length = 1 ∧
    (Demo.ppm 0 [Demo.groundPoint]).photonTotal = 0 ∧
    (photon_ppm.pass Demo.lib 3 Demo.scene (Demo.ppm 0 [Demo.groundPoint]) Demo.sampler
        []).toOption.map (fun r => r.st.photonTotal) = some 0 ∧
    (Demo.sppm 0 [Demo.pixel 0 0]).photonTotal = 0 ∧
    (photon_sppm.pass Demo.lib 3 Demo.scene (Demo.sppm 0 [Demo.pixel 0 0]) Demo.sampler
        []).toOption.map (fun r => r.st.photonTotal) = some 0 ∧
    (photon_ppm.pass Demo.lib 3 Demo.scene
        { Demo.ppm 0 [Demo.groundPoint] with photonTotal := 7 } Demo.sampler
        []).toOption.map (fun r => (r.emitted, r.st.photonTotal)) = some (0, 7) ∧
    (photon_sppm.pass Demo.lib 3 Demo.scene
        { Demo.sppm 0 [Demo.pixel 0 0] with photonTotal := 7 } Demo.sampler
        []).toOption.map (fun r => (r.emitted, r.st.photonTotal)) = some (0, 7) ∧
    (photon_ppm.pass Demo.lib 3 Demo.scene
        { Demo.ppm 1 [Demo.groundPoint] with photonTotal := 4294967295 } Demo.sampler
        []).toOption.map (fun r => (r.emitted, r.st.photonTotal)) = some (1, 0) := by
  decide!

/-! ### Russian roulette -/

/-- A surviving path keeps a non-negative throughput non-negative. -/
theorem russianRoulette_nonneg {depth depth1 : ℕ} {t t1 : Color3f} {s s1 : Sampler}
    (ht : t.NonNeg) (h : russianRoulette depth t s = .survive depth1 t1 s1) : t1.NonNeg := by
  simp only [russianRoulette] at h
  split_ifs at h
  · cases h
    exact ht
  · cases h
    exact Color3f.nonneg_divs ht (Color3f.maxCoeff_nonneg ht)

theorem deposit_map {power : Color3f} (its : Intersection) (Ray : Ray3f) {wait_albedo : Color3f}
    {st : Emission} (hp : power.NonNeg) (hw : wait_albedo.NonNeg)
    (hm : ∀ photon ∈ st.map, photon.power.NonNeg) :
    ∀ photon ∈ (deposit power its Ray wait_albedo st).map, photon.power.NonNeg := by
  unfold deposit
  split_ifs
  · intro photon hmem
    rcases List.mem_append.mp hmem with h | h
    · exact hm photon h
    · rw [List.mem_singleton] at h
      subst h
      exact Color3f.nonneg_mul hp hw
  · exact hm

/-- A light path stores only photons of non-negative power. -/
theorem photonPath_nonneg {scene : Scene} {power : Color3f} (hsc : scene.NonNeg)
    (hp : power.NonNeg) :
    ∀ (fuel : ℕ) (its : Intersection) (Ray : Ray3f) (wait_albedo : Color3f) (depth : ℕ)
      (st em : Emission), its.mesh.NonNeg → wait_albedo.NonNeg →
      (∀ photon ∈ st.map, photon.power.NonNeg) →
      photonPath scene power fuel its Ray wait_albedo depth st = .ok em →
      ∀ photon ∈ em.map, photon.power.NonNeg := by
  intro fuel
  induction fuel with
  | zero =>
    intro its Ray wait_albedo depth st em _ _ _ h
    simp only [photonPath] at h
    cases h
  | succ fuel ih =>
    intro its Ray wait_albedo depth st em hmesh hw hm h
    simp only [photonPath] at h
    have h1 := deposit_map its Ray hp hw hm
    split_ifs at h with hA
    · cases h
      exact h1
    · split at h
      · cases h
        exact h1
      · rename_i next_its hnext
        split at h
        · cases h
          exact h1
        · cases h
        · rename_i depth1 wait1 smp hrr
          have hw1 : wait1.NonNeg :=
            russianRoulette_nonneg (Color3f.nonneg_mul hw (hmesh.1 _ _)) hrr
          refine ih _ _ _ _ _ _ (hsc.2 _ _ hnext) hw1 ?_ h
          exact h1

/-- The budget loop stores only photons of non-negative power. -/
theorem emitLoop_nonneg {pathFuel : ℕ} {scene : Scene} {lights : List Mesh} {photonCount : ℕ}
    (hsc : scene.NonNeg) (hl : ∀ m ∈ lights, m.NonNeg) :
    ∀ (fuel : ℕ) (st em : Emission), (∀ photon ∈ st.map, photon.power.NonNeg) →
      emitLoop pathFuel scene lights photonCount fuel st = .ok em →
      ∀ photon ∈ em.map, photon.power.NonNeg := by
  intro fuel
  induction fuel with
  | zero =>
    intro st em hm h
    simp only [emitLoop] at h
    split_ifs at h
    cases h
    exact hm
  | succ fuel ih =>
    intro st em hm h
    simp only [emitLoop] at h
    split_ifs at h with hc
    · split at h
      · cases h
      · rename_i areaLight hal
        have hmem : areaLight ∈ lights := List.getElem?_mem hal
        split at h
        · refine ih _ _ ?_ h
          exact hm
        · rename_i its hits
          split at h
          · cases h
          · rename_i st2 hpath
            refine ih _ _ ?_ h
            refine photonPath_nonneg hsc ((hl _ hmem).2.2.2 _ _) _ _ _ _ _ _ _
              (hsc.2 _ _ hits) (Color3f.nonneg_const (by norm_num)) ?_ hpath
            exact hm
    · cases h
      exact hm

/-- The photon map of a pass holds only photons of non-negative power. -/
theorem emitPhotons_nonneg {fuel : ℕ} {scene : Scene} {photonCount : ℕ} {sampler : Sampler}
    {em : Emission} (hsc : scene.NonNeg)
    (h : emitPhotons fuel scene photonCount sampler = .ok em) :
    ∀ photon ∈ em.map, photon.power.NonNeg := by
  refine emitLoop_nonneg hsc (fun m hm => hsc.1 m ?_) fuel _ em (fun _ hmem => ?_) h
  · exact (List.mem_filter.mp hm).1
  · cases hmem

/-- The accumulation loop keeps the sum non-negative. -/
theorem gatherPower_nonneg {map : List Photon} {fr : Photon → Color3f}
    (hfr : ∀ photon, (fr photon).NonNeg) (hm : ∀ photon ∈ map, photon.power.NonNeg) :
    ∀ (l : List ℕ) (acc S : Color3f), acc.NonNeg → gatherPower map fr l acc = .ok S →
      S.NonNeg := by
  intro l
  induction l with
  | nil =>
    intro acc S ha h
    simp only [gatherPower] at h
    cases h
    exact ha
  | cons idx rest ih =>
    intro acc S ha h
    simp only [gatherPower] at h
    split at h
    · cases h
    · rename_i photon hp
      exact ih _ _ (Color3f.nonneg_add ha
        (Color3f.nonneg_mul (hfr photon) (hm photon (List.getElem?_mem hp)))) h

theorem forall₂_transfer {α : Type} {R : α → α → Prop} {P : α → Prop} {l l' : List α}
    (h : List.Forall₂ R l l') (hP : ∀ a ∈ l, P a) (hstep : ∀ a c, R a c → P a → P c) :
    ∀ c ∈ l', P c := by
  induction h with
  | nil => intro c hc; cases hc
  | cons hR _ ih =>
    intro c hc
    rcases List.mem_cons.mp hc with rfl | hc
    · exact hstep _ _ hR (hP _ (List.mem_cons_self _ _))
    · exact ih (fun a ha => hP a (List.mem_cons_of_mem _ ha)) c hc

/-- The viewpoint update keeps a record well formed. -/
theorem photon_ppm.updateViewPoint_wellFormed {lib : Lib} {alpha : ℚ} {map : List Photon}
    {photonTotal : ℕ} {vp : ViewQueryRecord} {block : ImageBlock}
    {r : ViewQueryRecord × ImageBlock} (h0 : 0 < alpha) (h1 : alpha < 1)
    (hm : ∀ photon ∈ map, photon.power.NonNeg) (hvp : vp.WellFormed)
    (h : photon_ppm.updateViewPoint lib alpha map photonTotal vp block = .ok r) :
    r.1.WellFormed := by
  have hs := photon_ppm.updateViewPoint_ok h
  by_cases he : lib.search map vp.its.p vp.radius = []
  · rw [hs.1 he]
    exact hvp
  · obtain ⟨-, nPower, hg, hr⟩ := hs.2 he
    have hM : 0 < (lib.search map vp.its.p vp.radius).length := List.length_pos.mpr he
    obtain ⟨-, hlo, -⟩ := rate_bounds hvp.2.2.2 h0 h1 hM
    have hn : nPower.NonNeg :=
      gatherPower_nonneg (fun photon => hvp.1.2.1 _ _) hm _ _ _
        (Color3f.nonneg_const (le_refl 0)) hg
    rw [hr]
    refine ⟨hvp.1, ?_, hvp.2.2.1, ?_⟩
    · exact Color3f.nonneg_mul (Color3f.nonneg_scale (Color3f.nonneg_add hvp.2.1 hn) hlo)
        hvp.2.2.1
    · have : (0 : ℚ) ≤ ((lib.search map vp.its.p vp.radius).length : ℚ) := Nat.cast_nonneg _
      simp only
      nlinarith [hvp.2.2.2]

/-- A pass of `photon_ppm` keeps all records well formed. -/
theorem photon_ppm.ppm_pass_wellFormed {lib : Lib} {fuel : ℕ} {scene : Scene} {st : photon_ppm}
    {sampler : Sampler} {block : ImageBlock} {r : photon_ppm.PassResult} (hsc : scene.NonNeg)
    (h0 : 0 < st.alpha) (h1 : st.alpha < 1) (hst : ∀ vp ∈ st.viewPointMap, vp.WellFormed)
    (h : photon_ppm.pass lib fuel scene st sampler block = .ok r) :
    r.st.alpha = st.alpha ∧ ∀ vp ∈ r.st.viewPointMap, vp.WellFormed := by
  obtain ⟨em, hem, hmap, -, -, ha, -, -, hF⟩ := photon_ppm.ppm_pass_ok h
  refine ⟨ha, forall₂_transfer (P := ViewQueryRecord.WellFormed) hF hst ?_⟩
  rintro vp vp' ⟨b, b', hu⟩ hvp
  have hm := emitPhotons_nonneg hsc hem
  rw [← hmap] at hm
  have hw := photon_ppm.updateViewPoint_wellFormed h0 h1 hm hvp hu
  exact hw

/-- Any number of passes of `photon_ppm` keeps all records well formed. -/
theorem photon_ppm.ppm_passes_wellFormed {lib : Lib} {fuel : ℕ} {scene : Scene}
    (hsc : scene.NonNeg) :
    ∀ (n : ℕ) (st : photon_ppm) (sampler : Sampler) (block : ImageBlock)
      (r : photon_ppm × Sampler × ImageBlock),
      0 < st.alpha → st.alpha < 1 → (∀ vp ∈ st.viewPointMap, vp.WellFormed) →
      photon_ppm.passes lib fuel scene n st sampler block = .ok r →
      ∀ vp ∈ r.1.viewPointMap, vp.WellFormed := by
  intro n
  induction n with
  | zero =>
    intro st sampler block r _ _ hst h
    simp only [photon_ppm.passes] at h
    cases h
    exact hst
  | succ n ih =>
    intro st sampler block r h0 h1 hst h
    simp only [photon_ppm.passes] at h
    split at h
    · cases h
    · rename_i p hp
      obtain ⟨ha, hw⟩ := photon_ppm.ppm_pass_wellFormed hsc h0 h1 hst hp
      exact ih _ _ _ _ (ha ▸ h0) (ha ▸ h1) hw h

/-- The eye loop of `photon_ppm::Li` appends only well-formed records. -/
theorem photon_ppm.LiLoop_wellFormed {scene : Scene} {photonRadius : ℚ} {bitmap_pos : Point2f}
    (hsc : scene.NonNeg) :
    ∀ (fuel : ℕ) (x : Intersection) (Ray : Ray3f) (wait_albedo : Color3f) (depth : ℕ)
      (sampler : Sampler) (vmap : List ViewQueryRecord) (r : List ViewQueryRecord × Sampler),
      x.mesh.NonNeg → wait_albedo.NonNeg → (∀ vp ∈ vmap, vp.WellFormed) →
      photon_ppm.LiLoop scene photonRadius bitmap_pos fuel x Ray wait_albedo depth sampler vmap
        = .ok r →
      ∀ vp ∈ r.1, vp.WellFormed := by
  intro fuel
  induction fuel with
  | zero =>
    intro x Ray wait_albedo depth sampler vmap r _ _ _ h
    simp only [photon_ppm.LiLoop] at h
    cases h
  | succ fuel ih =>
    intro x Ray wait_albedo depth sampler vmap r hx hw hv h
    simp only [photon_ppm.LiLoop] at h
    split_ifs at h with hA hE hD
    · cases h
      exact hv
    · cases h
      intro vp hmem
      rcases List.mem_append.mp hmem with hm | hm
      · exact hv vp hm
      · rw [List.mem_singleton] at hm
        subst hm
        exact ⟨hx, hx.2.2.1 _ _ _, hw, le_refl 0⟩
    · cases h
      intro vp hmem
      rcases List.mem_append.mp hmem with hm | hm
      · exact hv vp hm
      · rw [List.mem_singleton] at hm
        subst hm
        exact ⟨hx, Color3f.nonneg_const (le_refl 0), hw, le_refl 0⟩
    · split at h
      · cases h
        exact hv
      · rename_i next_x hnext
        split at h
        · cases h
          exact hv
        · cases h
        · rename_i depth1 wait1 smp hrr
          exact ih _ _ _ _ _ _ _ (hsc.2 _ _ hnext)
            (russianRoulette_nonneg (Color3f.nonneg_mul hw (hx.1 _ _)) hrr) hv h

/-- Any sequence of `Li` calls of `photon_ppm` keeps all records well formed. -/
theorem photon_ppm.LiAll_wellFormed {fuel : ℕ} {scene : Scene} (hsc : scene.NonNeg) :
    ∀ (calls : List (Sampler × Ray3f × Point2f)) (st st1 : photon_ppm),
      (∀ vp ∈ st.viewPointMap, vp.WellFormed) →
      photon_ppm.LiAll fuel scene calls st = .ok st1 →
      st1.alpha = st.alpha ∧ ∀ vp ∈ st1.viewPointMap, vp.WellFormed := by
  intro calls
  induction calls with
  | nil =>
    intro st st1 hst h
    simp only [photon_ppm.LiAll] at h
    cases h
    exact ⟨rfl, hst⟩
  | cons c rest ih =>
    intro st st1 hst h
    simp only [photon_ppm.LiAll] at h
    split at h
    · cases h
    · rename_i r hr
      unfold photon_ppm.Li at hr
      split at hr
      · cases hr
        exact ih _ _ hst h
      · rename_i its hits
        split at hr
        · cases hr
        · rename_i q hq
          cases hr
          have hw := photon_ppm.LiLoop_wellFormed hsc _ _ _ _ _ _ _ _ (hsc.2 _ _ hits)
            (Color3f.nonneg_const (by norm_num)) hst hq
          obtain ⟨ha, hb⟩ := ih _ st1 hw h
          exact ⟨ha, hb⟩


/-- The photon search of an eye path happens on a mesh with non-negative values
and with a non-negative throughput. -/
theorem photon_sppm.eyePath_gather_nonneg {lib : Lib} {scene : Scene} {alpha : ℚ}
    {map : List Photon} (hsc : scene.NonNeg) :
    ∀ (fuel : ℕ) (its : Intersection) (ray : Ray3f) (throughput : Color3f) (depth : ℕ)
      (pp : PixelQueryRecord) (block : ImageBlock) (sampler : Sampler) (s : PixelStep),
      its.mesh.NonNeg → throughput.NonNeg →
      photon_sppm.eyePath lib scene alpha map fuel its ray throughput depth pp block sampler
        = .ok s →
      ∀ g, s.gather = some g → g.its.mesh.NonNeg ∧ g.throughput.NonNeg := by
  intro fuel
  induction fuel with
  | zero =>
    intro its ray throughput depth pp block sampler s _ _ h
    simp only [photon_sppm.eyePath] at h
    cases h
  | succ fuel ih =>
    intro its ray throughput depth pp block sampler s hmesh ht h
    simp only [photon_sppm.eyePath, List.length_eq_zero] at h
    by_cases hE : its.mesh.isEmitter = true
    · rw [if_pos hE] at h
      cases h
      intro g hg
      cases hg
    · rw [if_neg hE] at h
      by_cases hD : its.mesh.bsdf.isDiffuse = true
      · rw [if_pos hD] at h
        split_ifs at h with h0 h1
        · cases h
          intro g hg
          cases hg
          exact ⟨hmesh, ht⟩
        · split at h
          · cases h
          · cases h
            intro g hg
            cases hg
            exact ⟨hmesh, ht⟩
      · rw [if_neg hD] at h
        split_ifs at h with hA
        · cases h
          intro g hg
          cases hg
        · split at h
          · cases h
            intro g hg
            cases hg
          · rename_i next_its hnext
            split at h
            · cases h
              intro g hg
              cases hg
            · cases h
            · rename_i depth1 throughput1 smp hrr
              exact ih _ _ _ _ _ _ _ _ (hsc.2 _ _ hnext)
                (russianRoulette_nonneg (Color3f.nonneg_mul ht (hmesh.1 _ _)) hrr) h

/-- The work on one pixel keeps its record well formed. -/
theorem photon_sppm.updatePixel_wellFormed {lib : Lib} {fuel : ℕ} {scene : Scene} {alpha : ℚ}
    {map : List Photon} {photonTotal : ℕ} {pp : PixelQueryRecord} {block : ImageBlock}
    {sampler : Sampler} {s : PixelStep} (hsc : scene.NonNeg) (h0 : 0 < alpha) (h1 : alpha < 1)
    (hm : ∀ photon ∈ map, photon.power.NonNeg) (hpp : pp.WellFormed)
    (h : photon_sppm.updatePixel lib fuel scene alpha map photonTotal pp block sampler = .ok s) :
    s.pp.WellFormed := by
  have hs := photon_sppm.updatePixel_ok h
  have hg : ∀ g, s.gather = some g → g.its.mesh.NonNeg ∧ g.throughput.NonNeg := by
    unfold photon_sppm.updatePixel at h
    dsimp only at h
    split at h
    · cases h
    · rename_i s0 hs0
      cases h
      split at hs0
      · cases hs0
        intro g hg
        cases hg
      · rename_i its hits
        exact photon_sppm.eyePath_gather_nonneg hsc _ _ _ _ _ _ _ _ s0 (hsc.2 _ _ hits)
          (Color3f.nonneg_const (by norm_num)) hs0
  cases hgs : s.gather with
  | none =>
    rw [hs.1 hgs]
    exact hpp
  | some g =>
    obtain ⟨-, hempty, hfound⟩ := hs.2 g hgs
    obtain ⟨hgm, hgt⟩ := hg g hgs
    by_cases he : g.local_photon = []
    · rw [hempty he]
      exact hpp
    · obtain ⟨-, nPower, hgp, hr⟩ := hfound he
      have hM : 0 < g.local_photon.length := List.length_pos.mpr he
      obtain ⟨-, hlo, -⟩ := rate_bounds hpp.2 h0 h1 hM
      have hn : nPower.NonNeg :=
        gatherPower_nonneg (fun photon => hgm.2.1 _ _) hm _ _ _
          (Color3f.nonneg_const (le_refl 0)) hgp
      rw [hr]
      refine ⟨Color3f.nonneg_mul (Color3f.nonneg_scale (Color3f.nonneg_add hpp.1 hn) hlo) hgt, ?_⟩
      have : (0 : ℚ) ≤ (g.local_photon.length : ℚ) := Nat.cast_nonneg _
      simp only
      nlinarith [hpp.2]

/-- A pass of `photon_sppm` keeps all records well formed. -/
theorem photon_sppm.sppm_pass_wellFormed {lib : Lib} {fuel : ℕ} {scene : Scene} {st : photon_sppm}
    {sampler : Sampler} {block : ImageBlock} {r : photon_sppm.PassResult} (hsc : scene.NonNeg)
    (h0 : 0 < st.alpha) (h1 : st.alpha < 1) (hst : ∀ pp ∈ st.PixelMap, pp.WellFormed)
    (h : photon_sppm.pass lib fuel scene st sampler block = .ok r) :
    r.st.alpha = st.alpha ∧ ∀ pp ∈ r.st.PixelMap, pp.WellFormed := by
  obtain ⟨em, hem, hmap, -, -, ha, -, -, hb, hafter, ht⟩ := photon_sppm.sppm_pass_ok h
  refine ⟨ha, fun pp hpp => ?_⟩
  rw [hafter, List.mem_map] at hpp
  obtain ⟨t, htm, rfl⟩ := hpp
  obtain ⟨b, smp, s, hu, hs, -⟩ := ht t htm
  have hm := emitPhotons_nonneg hsc hem
  rw [← hmap] at hm
  have hbefore : t.before.WellFormed := by
    apply hst
    rw [← hb]
    exact List.mem_map_of_mem _ htm
  have hw := photon_sppm.updatePixel_wellFormed hsc h0 h1 hm hbefore hu
  rw [hs] at hw
  exact hw

/-- Any number of passes of `photon_sppm` keeps all records well formed. -/
theorem photon_sppm.sppm_passes_wellFormed {lib : Lib} {fuel : ℕ} {scene : Scene}
    (hsc : scene.NonNeg) :
    ∀ (n : ℕ) (st : photon_sppm) (sampler : Sampler) (block : ImageBlock)
      (r : photon_sppm × Sampler × ImageBlock),
      0 < st.alpha → st.alpha < 1 → (∀ pp ∈ st.PixelMap, pp.WellFormed) →
      photon_sppm.passes lib fuel scene n st sampler block = .ok r →
      ∀ pp ∈ r.1.PixelMap, pp.WellFormed := by
  intro n
  induction n with
  | zero =>
    intro st sampler block r _ _ hst h
    simp only [photon_sppm.passes] at h
    cases h
    exact hst
  | succ n ih =>
    intro st sampler block r h0 h1 hst h
    simp only [photon_sppm.passes] at h
    split at h
    · cases h
    · rename_i p hp
      obtain ⟨ha, hw⟩ := photon_sppm.sppm_pass_wellFormed hsc h0 h1 hst hp
      exact ih _ _ _ _ (ha ▸ h0) (ha ▸ h1) hw h

/-- Any sequence of `Li` calls of `photon_sppm` keeps all records well formed. -/
theorem photon_sppm.Li_wellFormed :
    ∀ (pixels : List Point2f) (st : photon_sppm), (∀ pp ∈ st.PixelMap, pp.WellFormed) →
      (pixels.foldl photon_sppm.Li st).alpha = st.alpha ∧
        ∀ pp ∈ (pixels.foldl photon_sppm.Li st).PixelMap, pp.WellFormed := by
  intro pixels
  induction pixels with
  | nil =>
    intro st hst
    exact ⟨rfl, hst⟩
  | cons p rest ih =>
    intro st hst
    rw [List.foldl_cons]
    have hw : ∀ pp ∈ (photon_sppm.Li st p).PixelMap, pp.WellFormed := by
      intro pp hpp
      unfold photon_sppm.Li at hpp
      rcases List.mem_append.mp hpp with hm | hm
      · exact hst pp hm
      · rw [List.mem_singleton] at hm
        subst hm
        exact ⟨Color3f.nonneg_const (le_refl 0), le_refl 0⟩
    obtain ⟨ha, hb⟩ := ih _ hw
    exact ⟨ha, hb⟩

/-- Energy non-negativity on runs without a zero divisor.  Let every value
returned by a BSDF or an emitter of the scene (sample, eval, radiance, photon
power) have non-negative channels and `alpha` lie strictly between zero and
one.  Start from records with non-negative power/flux (for `photon_ppm` also
non-negative throughput, on meshes of the scene; counts non-negative), let `Li`
add records any number of times, then run any number of passes that end
without a division by zero: every record of either integrator then holds
non-negative power/flux. -/
theorem energy_nonnegativity (lib : Lib) (fuel : ℕ) (scene : Scene) (hsc : scene.NonNeg) :
    (∀ (st st1 : photon_ppm) (calls : List (Sampler × Ray3f × Point2f)) (fuel1 n : ℕ)
      (sampler : Sampler) (block : ImageBlock) (r : photon_ppm × Sampler × ImageBlock),
      0 < st.alpha → st.alpha < 1 → (∀ vp ∈ st.viewPointMap, vp.WellFormed) →
      photon_ppm.LiAll fuel1 scene calls st = .ok st1 →
      photon_ppm.passes lib fuel scene n st1 sampler block = .ok r →
      ∀ vp ∈ r.1.viewPointMap, vp.power.NonNeg) ∧
    (∀ (st : photon_sppm) (pixels : List Point2f) (n : ℕ) (sampler : Sampler)
      (block : ImageBlock) (r : photon_sppm × Sampler × ImageBlock),
      0 < st.alpha → st.alpha < 1 → (∀ pp ∈ st.PixelMap, pp.WellFormed) →
      photon_sppm.passes lib fuel scene n (pixels.foldl photon_sppm.Li st) sampler block = .ok r →
      ∀ pp ∈ r.1.PixelMap, pp.flux.NonNeg) := by
  constructor
  · intro st st1 calls fuel1 n sampler block r h0 h1 hst hLi hp vp hvp
    obtain ⟨ha, hw⟩ := photon_ppm.LiAll_wellFormed hsc calls st st1 hst hLi
    exact (photon_ppm.ppm_passes_wellFormed hsc n st1 sampler block r (ha ▸ h0) (ha ▸ h1) hw hp
      vp hvp).2.1
  · intro st pixels n sampler block r h0 h1 hst hp pp hpp
    obtain ⟨ha, hw⟩ := photon_sppm.Li_wellFormed pixels st hst
    exact (photon_sppm.sppm_passes_wellFormed hsc n _ sampler block r (ha ▸ h0) (ha ▸ h1) hw hp
      pp hpp).1


theorem Except.exists_ok_of_bind_toBool {ε α β : Type} (x : Except ε α) (f : α → Except ε β)
    (h : (x.bind f).toBool = true) : ∃ a b, x = .ok a ∧ f a = .ok b := by
  cases x with
  | error e => simp [Except.bind, Except.toBool] at h
  | ok a =>
    obtain ⟨b, hb⟩ := Except.exists_ok_of_toBool (f a) h
    exact ⟨a, b, rfl, hb⟩

theorem Demo.floor_nonneg : Demo.floor.NonNeg := by
  simp [Mesh.NonNeg, Demo.floor, Demo.diffuse, Demo.dark, Color3f.NonNeg, Color3f.const]

theorem Demo.lamp_nonneg : Demo.lamp.NonNeg := by
  simp [Mesh.NonNeg, Demo.lamp, Demo.diffuse, Demo.glow, Color3f.NonNeg, Color3f.const]

theorem Demo.pane_nonneg : Demo.pane.NonNeg := by
  simp [Mesh.NonNeg, Demo.pane, Demo.glass, Demo.dark, Color3f.NonNeg, Color3f.const]

/-- The small scene returns non-negative values throughout. -/
theorem Demo.scene_nonneg : Demo.scene.NonNeg := by
  constructor
  · intro m hm
    simp only [Demo.scene, List.mem_cons, List.mem_singleton, List.not_mem_nil, or_false] at hm
    rcases hm with rfl | rfl | rfl
    · exact Demo.floor_nonneg
    · exact Demo.lamp_nonneg
    · exact Demo.pane_nonneg
  · intro ray its h
    simp only [Demo.scene] at h
    split_ifs at h
    · cases h
      exact Demo.floor_nonneg
    · cases h
      exact Demo.lamp_nonneg
    · cases h
      exact Demo.pane_nonneg

/-- Instance of `energy_nonnegativity`: three `Li` calls (towards the ground,
the light and the pane) and two pixels, each followed by two passes in the
small scene. -/
theorem energy_nonnegativity_witness :
    (∃ st1 r,
      photon_ppm.LiAll 9 Demo.scene
        [(Demo.sampler, ⟨⟨0, 0, 1⟩, ⟨0, 0, -1⟩⟩, ⟨0, 0⟩),
         (Demo.sampler, ⟨⟨0, 0, 2⟩, ⟨0, 0, -1⟩⟩, ⟨1, 0⟩),
         (Demo.sampler, ⟨⟨0, 0, 3⟩, ⟨0, 0, -1⟩⟩, ⟨2, 0⟩)]
        (Demo.ppm 1 []) = .ok st1 ∧
      photon_ppm.passes Demo.lib 3 Demo.scene 2 st1 Demo.sampler [] = .ok r ∧
      ∀ vp ∈ r.1.viewPointMap, vp.power.NonNeg) ∧
    (∃ r,
      photon_sppm.passes Demo.lib 3 Demo.scene 2
        (([⟨0, 0⟩, ⟨5, 0⟩] : List Point2f).foldl photon_sppm.Li (Demo.sppm 1 []))
        Demo.sampler [] = .ok r ∧
      ∀ pp ∈ r.1.PixelMap, pp.flux.NonNeg) := by
  obtain ⟨st1, r, h1, hr⟩ := Except.exists_ok_of_bind_toBool
    (photon_ppm.LiAll 9 Demo.scene
      [(Demo.sampler, ⟨⟨0, 0, 1⟩, ⟨0, 0, -1⟩⟩, ⟨0, 0⟩),
       (Demo.sampler, ⟨⟨0, 0, 2⟩, ⟨0, 0, -1⟩⟩, ⟨1, 0⟩),
       (Demo.sampler, ⟨⟨0, 0, 3⟩, ⟨0, 0, -1⟩⟩, ⟨2, 0⟩)]
      (Demo.ppm 1 []))
    (fun st1 => photon_ppm.passes Demo.lib 3 Demo.scene 2 st1 Demo.sampler []) (by decide!)
  obtain ⟨r', hr'⟩ := Except.exists_ok_of_toBool
    (photon_sppm.passes Demo.lib 3 Demo.scene 2
      (([⟨0, 0⟩, ⟨5, 0⟩] : List Point2f).foldl photon_sppm.Li (Demo.sppm 1 []))
      Demo.sampler []) (by decide!)
  exact ⟨⟨st1, r, h1, hr,
      (energy_nonnegativity Demo.lib 3 Demo.scene Demo.scene_nonneg).1 (Demo.ppm 1 []) st1 _ 9 2
        _ _ r (by decide!) (by decide!) (fun vp hvp => by cases hvp) h1 hr⟩,
    ⟨r', hr',
      (energy_nonnegativity Demo.lib 3 Demo.scene Demo.scene_nonneg).2 (Demo.sppm 1 []) _ 2
        _ _ r' (by decide!) (by decide!) (fun pp hpp => by cases hpp) hr'⟩⟩

/-! ### Division by the survival probability -/

/-- The roulette block executes `throughput /= q` with `q = 0` exactly when the
minimum depth has been reached, the largest channel of the throughput is zero
and the draw does not exceed it. -/
theorem russianRoulette_dividesByZero_iff (depth : ℕ) (throughput : Color3f)
    (sampler : Sampler) :
    (russianRoulette depth throughput sampler).dividesByZero = true ↔
      LEAST_DEPTH ≤ depth ∧ throughput.maxCoeff = 0 ∧ sampler.next1D.1 ≤ 0 := by
  simp only [russianRoulette]
  split_ifs with hd hu hq
  · simp only [Roulette.dividesByZero, Bool.false_eq_true, false_iff, not_and]
    intro hle
    exact absurd hd (not_lt.mpr hle)
  · simp only [Roulette.dividesByZero, Bool.false_eq_true, false_iff, not_and, not_le]
    intro _ hq0
    rw [hq0] at hu
    exact hu
  · simp only [Roulette.dividesByZero, true_iff]
    refine ⟨not_lt.mp hd, hq, ?_⟩
    rw [hq] at hu
    exact not_lt.mp hu
  · simp only [Roulette.dividesByZero, Bool.false_eq_true, false_iff, not_and]
    intro _ hq0
    exact absurd hq0 hq

/-- With a strictly positive draw the divisor of an executed division is
strictly positive. -/
theorem russianRoulette_divisor_pos {depth depth1 : ℕ} {throughput throughput1 : Color3f}
    {sampler sampler1 : Sampler} (hd : LEAST_DEPTH ≤ depth) (hu : 0 < sampler.next1D.1)
    (h : russianRoulette depth throughput sampler = .survive depth1 throughput1 sampler1) :
    0 < throughput.maxCoeff ∧ throughput1 = throughput / throughput.maxCoeff := by
  simp only [russianRoulette, if_neg (not_lt.mpr hd)] at h
  split_ifs at h with h1 h2
  cases h
  exact ⟨lt_of_lt_of_le hu (not_lt.mp h1), rfl⟩

/-- C11, at the failing input.  The albedos `(1, 0, 0)` and `(0, 1, 0)` have
non-negative channels and largest channel one, yet their product with the
initial throughput has largest channel zero; with a draw of exactly zero the
test `draw > q` does not break, so the roulette block runs `throughput /= q`
with `q = 0`.  It does so in the light-path loop (emission phase, hence a pass of
either integrator), in the eye loop of `photon_ppm::Li` and in the eye loop of
`photon_sppm::postprocess`, on a path that alternates between the two
materials. -/
theorem roulette_divides_by_zero :
    Demo.still.next1D.1 = 0 ∧
    (Demo.red.sample ⟨0, 0, 1⟩ ⟨0, 0⟩).1 = ⟨1, 0, 0⟩ ∧
    (Demo.green.sample ⟨0, 0, 1⟩ ⟨0, 0⟩).1 = ⟨0, 1, 0⟩ ∧
    Color3f.maxCoeff ⟨1, 0, 0⟩ = 1 ∧ Color3f.maxCoeff ⟨0, 1, 0⟩ = 1 ∧
    Color3f.maxCoeff ((Color3f.const 1 * ⟨1, 0, 0⟩ * ⟨0, 1, 0⟩ : Color3f)) = 0 ∧
    (russianRoulette 5 ((Color3f.const 1 * ⟨1, 0, 0⟩ * ⟨0, 1, 0⟩ : Color3f))
      Demo.still).dividesByZero = true ∧
    fault? (emitPhotons 6 Demo.prism 1 Demo.still) = some .divisionByZero ∧
    fault? (photon_ppm.pass Demo.lib 6 Demo.prism (Demo.ppm 1 []) Demo.still [])
      = some .divisionByZero ∧
    fault? (photon_sppm.pass Demo.lib 6 Demo.prism (Demo.sppm 1 [Demo.pixel 0 0]) Demo.still [])
      = some .divisionByZero ∧
    fault? (photon_ppm.Li 6 Demo.prism (Demo.ppm 1 []) Demo.still ⟨⟨0, 0, 1⟩, ⟨0, 0, -1⟩⟩ ⟨0, 0⟩)
      = some .divisionByZero ∧
    fault? (photon_sppm.updatePixel Demo.lib 6 Demo.prism (1 / 4) [] 1 (Demo.pixel 0 0) []
      Demo.still) = some .divisionByZero := by
  decide!

/-! ### Non-finite flux -/

/-- Where the eye loop that ends at a zero divisor returns, the eye loop that
follows NaN returns the same record, block and sampler, with a finite flux. -/
theorem photon_sppm.eyePathNaN_of_eyePath {lib : Lib} {scene : Scene} {alpha : ℚ}
    {map : List Photon} :
    ∀ (fuel : ℕ) (its : Intersection) (ray : Ray3f) (throughput : Color3f) (depth : ℕ)
      (pp : PixelQueryRecord) (block : ImageBlock) (sampler : Sampler) (s : PixelStep),
      photon_sppm.eyePath lib scene alpha map fuel its ray throughput depth pp block sampler
        = .ok s →
      photon_sppm.eyePathNaN lib scene alpha map fuel its ray (some throughput) depth pp block
        sampler = .ok ⟨s.pp.radius, s.pp.p_nums, some s.pp.flux, s.block, s.sampler⟩ := by
  intro fuel
  induction fuel with
  | zero =>
    intro its ray throughput depth pp block sampler s h
    simp only [photon_sppm.eyePath] at h
    cases h
  | succ fuel ih =>
    intro its ray throughput depth pp block sampler s h
    simp only [photon_sppm.eyePath] at h
    simp only [photon_sppm.eyePathNaN]
    by_cases hE : its.mesh.isEmitter = true
    · rw [if_pos hE] at h ⊢
      cases h
      rfl
    · rw [if_neg hE] at h ⊢
      by_cases hD : its.mesh.bsdf.isDiffuse = true
      · rw [if_pos hD] at h ⊢
        by_cases h0 : (lib.search map its.p pp.radius).length = 0
        · rw [if_pos h0] at h ⊢
          cases h
          rfl
        · rw [if_neg h0] at h ⊢
          by_cases h1 : pp.p_nums + ((lib.search map its.p pp.radius).length : ℚ) = 0
          · rw [if_pos h1] at h
            cases h
          · rw [if_neg h1] at h ⊢
            split at h
            · cases h
            · rename_i nPower hg
              cases h
              simp only [hg, Option.map]
      · rw [if_neg hD] at h ⊢
        by_cases hA : (its.mesh.bsdf.sample (its.shFrame.toLocal (-ray.d))
            sampler.next2D.1).1.maxCoeff = 0
        · rw [if_pos hA] at h ⊢
          cases h
          rfl
        · rw [if_neg hA] at h ⊢
          split at h
          · cases h
            rfl
          · split at h
            · rename_i smp hrr
              cases h
              simp only [hrr]
            · cases h
            · rename_i depth1 throughput1 smp hrr
              simp only [hrr]
              exact ih _ _ _ _ _ _ _ _ h

/-- Where the work on a pixel that ends at a zero divisor returns, the work on
the pixel that follows NaN returns the same record, with a finite flux. -/
theorem photon_sppm.updatePixelNaN_of_updatePixel {lib : Lib} {fuel : ℕ} {scene : Scene}
    {alpha : ℚ} {map : List Photon} {photonTotal : ℕ} {pp : PixelQueryRecord}
    {block : ImageBlock} {sampler : Sampler} {s : PixelStep}
    (h : photon_sppm.updatePixel lib fuel scene alpha map photonTotal pp block sampler = .ok s) :
    ∃ s', photon_sppm.updatePixelNaN lib fuel scene alpha map photonTotal pp block sampler
        = .ok s' ∧
      s'.radius = s.pp.radius ∧ s'.p_nums = s.pp.p_nums ∧ s'.flux = some s.pp.flux ∧
      s'.sampler = s.sampler := by
  unfold photon_sppm.updatePixel at h
  unfold photon_sppm.updatePixelNaN
  dsimp only at h ⊢
  split at h
  · cases h
  · rename_i s0 hs0
    cases h
    split at hs0
    · rename_i hmiss
      cases hs0
      simp only [hmiss]
      exact ⟨_, rfl, rfl, rfl, rfl, rfl⟩
    · rename_i its hits
      simp only [hits, photon_sppm.eyePathNaN_of_eyePath _ _ _ _ _ _ _ _ s0 hs0]
      exact ⟨_, rfl, rfl, rfl, rfl, rfl⟩

/-- Where a pass of `photon_sppm` over a single pixel record returns, the pass
that follows NaN returns the same radius and count and the same, finite, flux. -/
theorem photon_sppm.passOnePixelNaN_of_pass {lib : Lib} {fuel : ℕ} {scene : Scene}
    {st : photon_sppm} {pp : PixelQueryRecord} {sampler : Sampler} {block : ImageBlock}
    {r : photon_sppm.PassResult} (hst : st.PixelMap = [pp])
    (h : photon_sppm.pass lib fuel scene st sampler block = .ok r) :
    ∃ s' q, photon_sppm.passOnePixelNaN lib fuel scene st pp sampler block = .ok s' ∧
      r.st.PixelMap = [q] ∧ s'.radius = q.radius ∧ s'.p_nums = q.p_nums ∧
      s'.flux = some q.flux := by
  unfold photon_sppm.pass at h
  unfold photon_sppm.passOnePixelNaN
  split at h
  · cases h
  · rename_i em hem
    dsimp only at h
    rw [hst] at h
    simp only [photon_sppm.sweep] at h
    split at h
    · cases h
    · rename_i rs hrs
      cases h
      split at hrs
      · cases hrs
      · rename_i s hs
        cases hrs
        obtain ⟨s', hs', hr, hp, hf, -⟩ := photon_sppm.updatePixelNaN_of_updatePixel hs
        simp only [hem]
        exact ⟨s', s.pp, hs', rfl, hr, hp, hf⟩

/-- The chain scene returns non-negative values throughout. -/
theorem Demo.chain_nonneg : Demo.chain.NonNeg := by
  have hlamp : (⟨true, Demo.diffuse, Demo.beam⟩ : Mesh).NonNeg := by
    simp [Mesh.NonNeg, Demo.diffuse, Demo.beam, Color3f.NonNeg, Color3f.const]
  have hred : (⟨false, Demo.red, Demo.dark⟩ : Mesh).NonNeg := by
    simp [Mesh.NonNeg, Demo.red, Demo.dark, Color3f.NonNeg, Color3f.const]
  have hgreen : (⟨false, Demo.green, Demo.dark⟩ : Mesh).NonNeg := by
    simp [Mesh.NonNeg, Demo.green, Demo.dark, Color3f.NonNeg, Color3f.const]
  constructor
  · intro m hm
    simp only [Demo.chain, List.mem_cons, List.mem_singleton, List.not_mem_nil, or_false] at hm
    rcases hm with rfl | rfl | rfl | rfl
    · exact hlamp
    · exact Demo.floor_nonneg
    · exact hred
    · exact hgreen
  · intro ray its h
    simp only [Demo.chain] at h
    split_ifs at h <;> cases h
    · exact Demo.floor_nonneg
    · exact hred
    · exact hgreen
    · exact hred
    · exact hgreen
    · exact hred
    · exact hgreen
    · exact Demo.floor_nonneg

/-- C6, at the failing input.  In the chain scene every BSDF and emitter value
has non-negative channels, `alpha` is one quarter, the pixel record starts with
flux zero and every draw is zero.  The one stored photon has power one.  The eye
path of the pixel crosses six panes with albedos `(1, 0, 0)` and `(0, 1, 0)` in
turn, so at the sixth the roulette block divides the throughput `(0, 0, 0)` by
`q = 0` (the draw `0` is not greater than `q`), and the throughput is NaN when
the path reaches the diffuse ground, where one photon is found: the flux
committed is `(flux + nPower) * rate * NaN`, NaN in every channel, not a
non-negative value (`photon_sppm.pass`, which does not follow NaN, leaves the
run at that division).  With every draw one half the same pixel keeps flux
zero. -/
theorem sppm_commits_nan_flux :
    Demo.chain.NonNeg ∧
    (0 < (Demo.sppm 1 [Demo.pixel 0 0]).alpha ∧ (Demo.sppm 1 [Demo.pixel 0 0]).alpha < 1) ∧
    (Demo.pixel 0 0).flux = Color3f.const 0 ∧ (Demo.pixel 0 0).p_nums = 0 ∧
    Demo.still.next1D.1 = 0 ∧
    (emitPhotons 7 Demo.chain 1 Demo.still).toOption.map
      (fun em => em.map.map (fun photon => photon.power)) = some [Color3f.const 1] ∧
    fault? (photon_sppm.pass Demo.lib 7 Demo.chain (Demo.sppm 1 [Demo.pixel 0 0]) Demo.still [])
      = some .divisionByZero ∧
    (photon_sppm.passOnePixelNaN Demo.lib 7 Demo.chain (Demo.sppm 1 [Demo.pixel 0 0])
        (Demo.pixel 0 0) Demo.still []).toOption.map
      (fun s => (s.radius, s.p_nums, s.flux, s.block.map (fun w => w.2)))
      = some (1 / 4, 1 / 4, none, [none]) ∧
    (photon_sppm.passOnePixelNaN Demo.lib 7 Demo.chain (Demo.sppm 1 [Demo.pixel 0 0])
        (Demo.pixel 0 0) Demo.sampler []).toOption.map
      (fun s => (s.radius, s.p_nums, s.flux))
      = some (1, 0, some (Color3f.const 0)) := by
  refine ⟨Demo.chain_nonneg, ?_⟩
  decide!

end Nori
